import Mathlib

/-!
Window resolution and CPU dashboard assembly of coroot.

A shallow embedding of `api/api.go` (`Api.loadWorld`,
`increaseStepForBigDurations`, `maxDuration`) and of
`views/application/cpu.go` (`cpu`, `cpuByMode`), with the properties of the
specification stated and settled over it.

Go's `int64`-based `timeseries.Time` and `timeseries.Duration` are embedded as
`Int`: every value handled here is a wall-clock timestamp or a refresh
interval in seconds, far away from the 64-bit range, and the only arithmetic
performed is one subtraction, one addition and comparisons.
-/

namespace Coroot

namespace timeseries

/-- Modelled from the spec: the type `timeseries.Duration` (declared outside
`api/api.go`), a signed number of seconds. -/
abbrev Duration := Int

/-- Modelled from the spec: the type `timeseries.Time` (declared outside
`api/api.go`), a signed number of seconds since the epoch; the zero value
means "never updated". -/
abbrev Time := Int

/-- Modelled from the spec: the constant `timeseries.Second`, the unit of
`Duration` (the spec writes the boundary `5×24h+1s`). -/
def Second : Duration := 1

/-- Modelled from the spec: the constant `timeseries.Minute`. -/
def Minute : Duration := 60 * Second

/-- Modelled from the spec: the constant `timeseries.Hour`. -/
def Hour : Duration := 60 * Minute

/-- Modelled from the spec: `Time.Truncate`, "truncate down to multiples of
`step`" (§4.1 step 1). -/
def Truncate (t : Time) (d : Duration) : Time := t - t % d

/-- Modelled from the spec: `Time.IsZero`, "`lastUpdate` is unset (zero)". -/
def IsZero (t : Time) : Bool := t == 0

/-- Modelled from the spec: `Time.Before`, "strictly before". -/
def Before (t other : Time) : Bool := decide (t < other)

/-- Modelled from the spec: `Time.Add`, the time shifted by a duration. -/
def Add (t : Time) (d : Duration) : Time := t + d

/-- Modelled from the spec: `Time.Sub`, the duration between two times
(`duration = to - from`). -/
def Sub (t other : Time) : Duration := t - other

end timeseries

open timeseries

namespace api

/-- `maxDuration` of `api/api.go`, lines 240–245. -/
def maxDuration (d1 d2 : Duration) : Duration :=
  if d1 ≥ d2 then d1 else d2

/-- `increaseStepForBigDurations` of `api/api.go`, lines 224–238: a `switch`
whose cases are tried in order, the first true one returning. -/
def increaseStepForBigDurations (duration step : Duration) : Duration :=
  if duration > 5 * 24 * Hour then maxDuration step (60 * Minute)
  else if duration > 24 * Hour then maxDuration step (15 * Minute)
  else if duration > 12 * Hour then maxDuration step (10 * Minute)
  else if duration > 6 * Hour then maxDuration step (5 * Minute)
  else if duration > 4 * Hour then maxDuration step Minute
  else step

/-- The two outcomes of the window resolution of `Api.loadWorld`: the early
return `nil, cacheUpdateTime, nil` of line 208, or the arguments handed to
`constructor.LoadWorld` on line 220. -/
inductive Resolution where
  | notAvailable (lastUpdate : Time)
  | window (from_ to_ : Time) (step : Duration)
  deriving DecidableEq, Repr

/-- Lines 203–217 of `Api.loadWorld`: from the parsed request bounds, the
project's refresh interval and the cache update time to either the early
return or the window passed to the snapshot loader. -/
def resolveWindow (from_ to_ : Time) (step : Duration) (cacheUpdateTime : Time) :
    Resolution :=
  let from1 := Truncate from_ step
  let to1 := Truncate to_ step
  if IsZero cacheUpdateTime || Before cacheUpdateTime from1 then
    Resolution.notAvailable cacheUpdateTime
  else
    let duration := Sub to1 from1
    let availableTo := Truncate (Add cacheUpdateTime (-step)) step
    if Before availableTo to1 then
      Resolution.window (Add availableTo (-duration)) availableTo
        (increaseStepForBigDurations duration step)
    else
      Resolution.window from1 to1 (increaseStepForBigDurations duration step)

/-- `Api.loadWorld` of `api/api.go`, lines 187–222. The request bounds arrive
already parsed (`utils.ParseTimeFromUrl`), the two database reads arrive as
their results, and the snapshot loader `constructor.LoadWorld` is a
parameter. The result is the Go triple `(world, time, err)`. -/
def loadWorld {W E : Type} (from_ to_ : Time) (project : Except E Duration)
    (cacheUpdateTime : Except E Time)
    (LoadWorld : Time → Time → Duration → Option W × Option E) :
    Option W × Time × Option E :=
  match project with
  | Except.error err => (none, 0, some err)
  | Except.ok step =>
    match cacheUpdateTime with
    | Except.error err => (none, 0, some err)
    | Except.ok cacheUpdateTime =>
      match resolveWindow from_ to_ step cacheUpdateTime with
      | Resolution.notAvailable lastUpdate => (none, lastUpdate, none)
      | Resolution.window from2 to2 step2 =>
        ((LoadWorld from2 to2 step2).1, cacheUpdateTime, (LoadWorld from2 to2 step2).2)

/-- The duration table of the specification (§4.1 step 4), row by row, the
largest threshold first. -/
def durationTable (duration step : Duration) : Duration :=
  if duration > 5 * (24 * Hour) then max step (60 * Minute)
  else if duration > 1 * (24 * Hour) then max step (15 * Minute)
  else if duration > 12 * Hour then max step (10 * Minute)
  else if duration > 6 * Hour then max step (5 * Minute)
  else if duration > 4 * Hour then max step (1 * Minute)
  else step

end api

namespace timeseries

/-- Modelled from the spec: the reducers `timeseries.NanSum`, `timeseries.Max` and
`timeseries.Any` (§4.2), declared outside `views/application/cpu.go`. -/
inductive Reducer where
  | NanSum
  | Max
  | Any
  deriving DecidableEq, Repr

/-- Modelled from the spec: a value of the interface `timeseries.TimeSeries`, declared
outside `views/application/cpu.go`. It is either a series of the snapshot, held by
reference (no copy) and never inspected by `cpu`, or an `AggregatedTimeseries`: a
reducer with the inputs added to it so far. -/
inductive TimeSeries where
  | data (ref : Nat)
  | aggregated (f : Reducer) (input : List TimeSeries)

/-- Modelled from the spec: `timeseries.Aggregate`, a fresh aggregate without
inputs. -/
def Aggregate (f : Reducer) : TimeSeries := TimeSeries.aggregated f []

/-- Modelled from the spec: `AggregatedTimeseries.AddInput`, "more inputs can be added
to an existing aggregate without recomputing prior ones". The receiver is what the type
assertion `.(*timeseries.AggregatedTimeseries)` of `cpu` yields; `cpu` only ever asserts
values built by `Aggregate`, so the second case is never reached from it. -/
def AddInput : TimeSeries → TimeSeries → TimeSeries
  | TimeSeries.aggregated f input, ts => TimeSeries.aggregated f (input ++ [ts])
  | TimeSeries.data ref, _ => TimeSeries.data ref

end timeseries

/-- A Go `map[string]V`, as the list of its entries; a lookup returns the first entry of
the key. -/
structure GoMap (V : Type) where
  entries : List (String × V)

namespace GoMap

/-- The empty map literal `map[string]V{}`. -/
def empty {V : Type} : GoMap V := ⟨[]⟩

/-- The lookup `v, ok := m[k]`. -/
def get? {V : Type} (m : GoMap V) (k : String) : Option V :=
  (m.entries.find? (fun e => e.1 == k)).map (fun e => e.2)

def setEntries {V : Type} (k : String) (v : V) : List (String × V) → List (String × V)
  | [] => [(k, v)]
  | e :: es => if e.1 == k then (k, v) :: es else e :: setEntries k v es

/-- The assignment `m[k] = v`. -/
def set {V : Type} (m : GoMap V) (k : String) (v : V) : GoMap V :=
  ⟨setEntries k v m.entries⟩

/-- The keys of the map. -/
def keys {V : Type} (m : GoMap V) : List String := m.entries.map (fun e => e.1)

end GoMap

namespace model

/-- Modelled from the spec: `model.ApplicationId`, the stable id of an Application,
declared outside the given sources (`api/api.go` parses it with
`model.NewApplicationIdFromString`; `cpu` reads its component `Name`). -/
structure ApplicationId where
  Namespace : String
  Kind : String
  Name : String
  deriving DecidableEq, Repr

/-- Modelled from the spec: `model.Container`, with the series `cpu` reads. -/
structure Container where
  Name : String
  CpuUsage : timeseries.TimeSeries
  CpuLimit : timeseries.TimeSeries
  CpuDelay : timeseries.TimeSeries
  ThrottledTime : timeseries.TimeSeries

/-- Modelled from the spec: an element of `Node.Instances`, the read-only list of the
instances scheduled on a node. `cpu` reads its owner id and its containers. -/
structure NodeInstance where
  Name : String
  OwnerId : ApplicationId
  Containers : List Container

/-- Modelled from the spec: `model.Node`, with the fields `cpu` reads; `Name` is the
value of the node's name label (`node.Name.Value()`). -/
structure Node where
  Name : String
  CpuUsagePercent : timeseries.TimeSeries
  CpuUsageByMode : GoMap timeseries.TimeSeries
  CpuCapacity : timeseries.TimeSeries
  Instances : List NodeInstance

/-- Modelled from the spec: `model.Instance`; `Node` is `none` for the Go `nil`. -/
structure Instance where
  Name : String
  OwnerId : ApplicationId
  Containers : List Container
  Node : Option Node

/-- Modelled from the spec: `model.Application`, with the instances it owns. -/
structure Application where
  Id : ApplicationId
  Instances : List Instance

end model

namespace widgets

open timeseries

/-- Modelled from the spec: `widgets.Series`: name, display colour, underlying series. -/
structure Series where
  Name : String
  Color : String
  Data : TimeSeries

/-- Modelled from the spec: the threshold overlay of a chart: a name, a reducer and the
series contributed to it, combined under that reducer. -/
structure Threshold where
  Name : String
  Reducer : Reducer
  Data : TimeSeries

/-- Modelled from the spec: `widgets.Chart` (§3): title (the key it has in its group),
ordered list of series, optional threshold, and the flags. -/
structure Chart where
  Title : String
  Series : List Series
  Threshold : Option Threshold
  featured : Bool
  sorted : Bool
  stacked : Bool

/-- Modelled from the spec: `widgets.ChartGroup`: a title template and its charts in
insertion order. -/
structure ChartGroup where
  Title : String
  Charts : List Chart

/-- Modelled from the spec: `widgets.Dashboard`: a name and an ordered sequence of chart
groups. -/
structure Dashboard where
  Name : String
  ChartGroups : List ChartGroup

/-- A chart as created by get-or-create: no series, no threshold, no flag. -/
def Chart.new (title : String) : Chart :=
  ⟨title, [], none, false, false, false⟩

/-- Modelled from the spec: `Chart.AddSeries(name, series)` (§4.3): appends one
series. -/
def Chart.AddSeries (chart : Chart) (name : String) (data : TimeSeries) : Chart :=
  { chart with Series := chart.Series ++ [⟨name, "", data⟩] }

/-- Modelled from the spec: `Chart.AddMany(namedSeries)` (§4.3): adds the named series
one after the other. -/
def Chart.AddMany (chart : Chart) (series : List (String × TimeSeries)) : Chart :=
  series.foldl (fun ch s => ch.AddSeries s.1 s.2) chart

/-- Modelled from the spec: `Chart.SetThreshold(name, series, reducer)` (§4.3): the
single threshold of the chart, to which every call contributes its series. -/
def Chart.SetThreshold (chart : Chart) (name : String) (data : TimeSeries)
    (f : Reducer) : Chart :=
  match chart.Threshold with
  | none => { chart with Threshold := some ⟨name, f, AddInput (Aggregate f) data⟩ }
  | some t => { chart with Threshold := some { t with Data := AddInput t.Data data } }

/-- Modelled from the spec: `Chart.Feature()`, a pure flag setter. -/
def Chart.Feature (chart : Chart) : Chart := { chart with featured := true }

/-- Modelled from the spec: `Chart.Sorted()`, a pure flag setter. -/
def Chart.Sorted (chart : Chart) : Chart := { chart with sorted := true }

/-- Modelled from the spec: `Chart.Stacked()`, a pure flag setter. -/
def Chart.Stacked (chart : Chart) : Chart := { chart with stacked := true }

/-- Get-or-create by key in an insertion-ordered list, followed by the mutation `f` of
the element found or created: the first element with the key is updated in place, and
a new element is appended when there is none. -/
def upsert {α : Type} (key : α → String) (mk : String → α) (k : String) (f : α → α) :
    List α → List α
  | [] => [f (mk k)]
  | x :: xs => if key x == k then f x :: xs else x :: upsert key mk k f xs

/-- Modelled from the spec: `ChartGroup.GetOrCreateChart(key)` (§4.3), idempotent by
key and preserving first-insertion order; `f` is what the caller does to the chart it
is handed. -/
def ChartGroup.GetOrCreateChart (g : ChartGroup) (key : String) (f : Chart → Chart) :
    ChartGroup :=
  { g with Charts := upsert Chart.Title Chart.new key f g.Charts }

/-- Modelled from the spec: `Dashboard.GetOrCreateChartInGroup(titleTemplate, key)`:
get-or-create of the group by its title template, then of the chart by its key; `f` is
the chain of calls made on the returned chart. -/
def Dashboard.GetOrCreateChartInGroup (d : Dashboard) (title key : String)
    (f : Chart → Chart) : Dashboard :=
  ⟨d.Name, upsert ChartGroup.Title (fun t => ⟨t, []⟩) title
    (fun g => g.GetOrCreateChart key f) d.ChartGroups⟩

/-- The chart with key `key` in the group titled `title`, if there is one. -/
def Dashboard.chart? (d : Dashboard) (title key : String) : Option Chart :=
  (d.ChartGroups.find? (fun g => g.Title == title)).bind
    (fun g => g.Charts.find? (fun c => c.Title == key))

/-- The series of the chart with key `key` in the group titled `title`; none when
there is no such chart. -/
def Dashboard.seriesOf (d : Dashboard) (title key : String) : List Series :=
  match d.chart? title key with
  | some c => c.Series
  | none => []

/-- The effect of a chain of chart calls `f` that matters to a lookup: the title of
the chart is kept and the series `xs` are appended to those it already has. -/
def Appends (f : Chart → Chart) (xs : List Series) : Prop :=
  ∀ c, (f c).Title = c.Title ∧ (f c).Series = c.Series ++ xs

end widgets

namespace application

open timeseries model widgets

/-- The `switch mode` of `cpuByMode`, lines 63–79; `color` keeps its zero value when no
case matches. -/
def modeColor (mode : String) : String :=
  if mode = "user" then "blue"
  else if mode = "system" then "red"
  else if mode = "wait" ∨ mode = "iowait" then "orange"
  else if mode = "steal" then "black"
  else if mode = "irq" then "grey"
  else if mode = "softirq" then "yellow"
  else if mode = "nice" then "lightGreen"
  else ""

/-- `cpuByMode` of `views/application/cpu.go`, lines 56–83. -/
def cpuByMode (modes : GoMap TimeSeries) : List Series :=
  ["user", "nice", "system", "wait", "iowait", "steal", "irq", "softirq"].foldl
    (fun res mode =>
      match modes.get? mode with
      | none => res
      | some v => res ++ [⟨mode, modeColor mode, v⟩])
    []

/-- Lines 34–44 of `cpu`: the per-application aggregates of a node's instances. The
aggregate of an owner is looked up (and created when missing), receives the
`CpuUsage` of every container of the instance, and is what the map holds for the
owner's name afterwards. -/
def usageByApp (instances : List NodeInstance) : GoMap TimeSeries :=
  instances.foldl
    (fun usageByApp inst =>
      let appUsage :=
        match usageByApp.get? inst.OwnerId.Name with
        | some a => a
        | none => Aggregate Reducer.NanSum
      usageByApp.set inst.OwnerId.Name
        (inst.Containers.foldl (fun a c => AddInput a c.CpuUsage) appUsage))
    GoMap.empty

/-- The state of the loop of `cpu`: the dashboard and the map `relevantNodes`. -/
structure CpuState where
  dash : Dashboard
  relevantNodes : GoMap Node

/-- Lines 15–19 of `cpu`: the three container-level charts of one container. -/
def cpuContainer (i : Instance) (dash : Dashboard) (c : Container) : Dashboard :=
  let dash1 := dash.GetOrCreateChartInGroup "CPU usage of container <selector>, cores" c.Name
    (fun ch => (ch.AddSeries i.Name c.CpuUsage).SetThreshold "limit" c.CpuLimit Reducer.Max)
  let dash2 := dash1.GetOrCreateChartInGroup
    "CPU delay of container <selector>, seconds/second" c.Name
    (fun ch => ch.AddSeries i.Name c.CpuDelay)
  dash2.GetOrCreateChartInGroup
    "Throttled time of container <selector>, seconds/second" c.Name
    (fun ch => ch.AddSeries i.Name c.ThrottledTime)

/-- Lines 25–49 of `cpu`: the node-level charts of a node seen for the first time.
`Top` stands for `timeseries.Top`, whose ranking reads the samples of the series. -/
def cpuNode (Top : GoMap TimeSeries → Reducer → Nat → List (String × TimeSeries))
    (dash : Dashboard) (node : Node) : Dashboard :=
  let nodeName := node.Name
  let dash1 := dash.GetOrCreateChartInGroup "Node CPU usage <selector>, %" "overview"
    (fun ch => (ch.AddSeries nodeName node.CpuUsagePercent).Feature)
  let dash2 := dash1.GetOrCreateChartInGroup "Node CPU usage <selector>, %" nodeName
    (fun ch =>
      (cpuByMode node.CpuUsageByMode).foldl
        (fun byMode s => { byMode with Series := byMode.Series ++ [s] })
        ch.Sorted.Stacked)
  dash2.GetOrCreateChartInGroup "CPU consumers on <selector>, cores" nodeName
    (fun ch =>
      ((ch.Stacked.Sorted).SetThreshold "total" node.CpuCapacity Reducer.Any).AddMany
        (Top (usageByApp node.Instances) Reducer.NanSum 5))

/-- Lines 13–52 of `cpu`: the body of the loop over the instances. -/
def cpuInstance (Top : GoMap TimeSeries → Reducer → Nat → List (String × TimeSeries))
    (st : CpuState) (i : Instance) : CpuState :=
  let dash := i.Containers.foldl (cpuContainer i) st.dash
  match i.Node with
  | none => ⟨dash, st.relevantNodes⟩
  | some node =>
    match st.relevantNodes.get? node.Name with
    | some _ => ⟨dash, st.relevantNodes⟩
    | none => ⟨cpuNode Top dash node, st.relevantNodes.set node.Name node⟩

/-- `cpu` of `views/application/cpu.go`, lines 9–54. -/
def cpu (Top : GoMap TimeSeries → Reducer → Nat → List (String × TimeSeries))
    (app : Application) : Dashboard :=
  (app.Instances.foldl (cpuInstance Top) ⟨⟨"CPU", []⟩, GoMap.empty⟩).dash

/-- The three container-level chart groups of `cpu`, each with the series of a
container that goes into it. -/
def ContainerChart (title : String) (sel : Container → TimeSeries) : Prop :=
  (title = "CPU usage of container <selector>, cores" ∧ sel = Container.CpuUsage) ∨
  (title = "CPU delay of container <selector>, seconds/second" ∧ sel = Container.CpuDelay) ∨
  (title = "Throttled time of container <selector>, seconds/second" ∧
    sel = Container.ThrottledTime)

/-- The two node-level chart groups of `cpu`. -/
def NodeChart (title : String) : Prop :=
  title = "Node CPU usage <selector>, %" ∨ title = "CPU consumers on <selector>, cores"

/-- Two dashboards with the same charts in the node-level groups. -/
def NodeEq (d1 d2 : Dashboard) : Prop :=
  ∀ title key, NodeChart title → d1.chart? title key = d2.chart? title key

/-- The state of the loop of `cpu` after the instances `l`. -/
def cpuState (Top : GoMap TimeSeries → Reducer → Nat → List (String × TimeSeries))
    (l : List Instance) : CpuState :=
  l.foldl (cpuInstance Top) ⟨⟨"CPU", []⟩, GoMap.empty⟩

/-- The invariant of the loop of `cpu` on the node-level charts, after the instances
`l`, none of whose nodes is named "overview": the keys of `relevantNodes` are the node
names met so far; the overview chart has one series per key; the mode-breakdown and
consumer charts of a key hold what the node recorded for that key contributed, once;
and the charts of any other key are still without series. -/
def CpuInv (Top : GoMap TimeSeries → Reducer → Nat → List (String × TimeSeries))
    (l : List Instance) (st : CpuState) : Prop :=
  (∀ n, n ∈ st.relevantNodes.keys ↔ ∃ i ∈ l, ∃ nd, i.Node = some nd ∧ nd.Name = n) ∧
  ((st.dash.seriesOf "Node CPU usage <selector>, %" "overview").map
    (fun s => s.Name)).Nodup ∧
  (∀ n, n ∈ (st.dash.seriesOf "Node CPU usage <selector>, %" "overview").map
    (fun s => s.Name) ↔ n ∈ st.relevantNodes.keys) ∧
  (∀ n nd0, st.relevantNodes.get? n = some nd0 →
    nd0.Name = n ∧ (∃ i ∈ l, i.Node = some nd0) ∧
    st.dash.seriesOf "Node CPU usage <selector>, %" n = cpuByMode nd0.CpuUsageByMode ∧
    st.dash.seriesOf "CPU consumers on <selector>, cores" n =
      (Top (usageByApp nd0.Instances) Reducer.NanSum 5).map
        (fun s => (⟨s.1, "", s.2⟩ : Series))) ∧
  (∀ n, n ∉ st.relevantNodes.keys →
    (n ≠ "overview" → st.dash.seriesOf "Node CPU usage <selector>, %" n = []) ∧
    st.dash.seriesOf "CPU consumers on <selector>, cores" n = [])

/-- A stand-in for `timeseries.Top` in concrete evaluations: the first `n` entries of
the map. -/
def firstEntries (m : GoMap TimeSeries) (_f : Reducer) (n : Nat) :
    List (String × TimeSeries) :=
  m.entries.take n

/-- A node with the given name, a `user` mode series and no instance list. -/
def sampleNode (name : String) : Node :=
  ⟨name, TimeSeries.data 10, ⟨[("user", TimeSeries.data 11)]⟩, TimeSeries.data 12, []⟩

/-- The scenario of the specification: an application with two instances on the same
node, each with one container. -/
def twoInstancesOneNode (nodeName : String) : Application :=
  ⟨⟨"default", "Deployment", "web"⟩,
    [⟨"web-1", ⟨"default", "Deployment", "web"⟩,
        [⟨"web", TimeSeries.data 1, TimeSeries.data 2, TimeSeries.data 3, TimeSeries.data 4⟩],
        some (sampleNode nodeName)⟩,
     ⟨"web-2", ⟨"default", "Deployment", "web"⟩,
        [⟨"web", TimeSeries.data 5, TimeSeries.data 6, TimeSeries.data 7, TimeSeries.data 8⟩],
        some (sampleNode nodeName)⟩]⟩

/-- The fixed mode order of the specification with the fixed colour of each mode
(§4.4 step 2b). -/
def modeColourTable : List (String × String) :=
  [("user", "blue"), ("nice", "lightGreen"), ("system", "red"), ("wait", "orange"),
   ("iowait", "orange"), ("steal", "black"), ("irq", "grey"), ("softirq", "yellow")]

end application

end Coroot

namespace Coroot

open timeseries api model widgets application

theorem maxDuration_eq_max (d1 d2 : Duration) : maxDuration d1 d2 = max d1 d2 := by
  unfold maxDuration
  split_ifs with h
  · exact (max_eq_left h).symm
  · exact (max_eq_right (le_of_lt (not_le.mp h))).symm

/-- C1: `increaseStepForBigDurations` agrees with the duration table of the
specification for every duration and every step; only the first (largest)
matching threshold is applied. -/
theorem increaseStepForBigDurations_eq_durationTable (duration step : Duration) :
    increaseStepForBigDurations duration step = durationTable duration step := by
  unfold increaseStepForBigDurations durationTable
  simp only [maxDuration_eq_max, Hour, Minute, Second]
  norm_num

theorem Truncate_dvd (t : Time) (d : Duration) : d ∣ Truncate t d := by
  unfold Truncate
  exact Int.dvd_sub_of_emod_eq rfl

theorem Truncate_le (t : Time) (d : Duration) (hd : 0 < d) : Truncate t d ≤ t := by
  unfold Truncate
  have := Int.emod_nonneg t (ne_of_gt hd)
  simp only [Time, Duration] at *
  omega

theorem Truncate_eq_mul_ediv (t : Time) (d : Duration) : Truncate t d = d * (t / d) := by
  unfold Truncate
  have := Int.emod_add_ediv t d
  simp only [Time, Duration] at *
  omega

theorem Truncate_mono (a b : Time) (d : Duration) (hd : 0 < d) (hab : a ≤ b) :
    Truncate a d ≤ Truncate b d := by
  rw [Truncate_eq_mul_ediv, Truncate_eq_mul_ediv]
  exact Int.mul_le_mul_of_nonneg_left (Int.ediv_le_ediv hd hab) (le_of_lt hd)

theorem Truncate_of_dvd (t : Time) (d : Duration) (h : d ∣ t) : Truncate t d = t := by
  unfold Truncate
  rw [Int.emod_eq_zero_of_dvd h]
  exact sub_zero t

/-- The three paths through the window resolution of `loadWorld`: the early return, the
clamped window and the unclamped window. -/
theorem resolveWindow_cases (from_ to_ : Time) (step : Duration) (lastUpdate : Time) :
    ((lastUpdate = 0 ∨ lastUpdate < Truncate from_ step) ∧
      resolveWindow from_ to_ step lastUpdate = Resolution.notAvailable lastUpdate) ∨
    (¬ (lastUpdate = 0 ∨ lastUpdate < Truncate from_ step) ∧
      Truncate (lastUpdate + -step) step < Truncate to_ step ∧
      resolveWindow from_ to_ step lastUpdate =
        Resolution.window
          (Truncate (lastUpdate + -step) step + -(Truncate to_ step - Truncate from_ step))
          (Truncate (lastUpdate + -step) step)
          (increaseStepForBigDurations (Truncate to_ step - Truncate from_ step) step)) ∨
    (¬ (lastUpdate = 0 ∨ lastUpdate < Truncate from_ step) ∧
      ¬ Truncate (lastUpdate + -step) step < Truncate to_ step ∧
      resolveWindow from_ to_ step lastUpdate =
        Resolution.window (Truncate from_ step) (Truncate to_ step)
          (increaseStepForBigDurations (Truncate to_ step - Truncate from_ step) step)) := by
  unfold resolveWindow
  simp only [IsZero, Before, timeseries.Add, timeseries.Sub, Bool.or_eq_true, beq_iff_eq, decide_eq_true_eq]
  by_cases h : lastUpdate = 0 ∨ lastUpdate < Truncate from_ step
  · left
    exact ⟨h, if_pos h⟩
  · right
    rw [if_neg h]
    by_cases hc : Truncate (lastUpdate + -step) step < Truncate to_ step
    · left
      exact ⟨h, hc, if_pos hc⟩
    · right
      exact ⟨h, hc, if_neg hc⟩

/-- C2 fails as stated: at a duration of exactly `5×24h` a configured step of one
minute is not returned unchanged, the 15-minute row applies. -/
theorem increaseStepForBigDurations_boundary_counterexample :
    increaseStepForBigDurations (5 * 24 * Hour) Minute = 15 * Minute ∧
    increaseStepForBigDurations (5 * 24 * Hour) Minute ≠ Minute := by
  decide

/-- C2 (amended): for every configured step, at `5×24h+1s` the result is
`max(step, 60 min)`, hence at least 60 minutes; at exactly `5×24h` the 60-minute
row does not apply and the next row does: the result is `max(step, 15 min)`, which
is the configured step exactly when that step is at least 15 minutes. -/
theorem increaseStepForBigDurations_boundary (step : Duration) :
    increaseStepForBigDurations (5 * 24 * Hour + Second) step = max step (60 * Minute) ∧
    increaseStepForBigDurations (5 * 24 * Hour + Second) step ≥ 60 * Minute ∧
    increaseStepForBigDurations (5 * 24 * Hour) step = max step (15 * Minute) ∧
    (increaseStepForBigDurations (5 * 24 * Hour) step = step ↔ 15 * Minute ≤ step) := by
  unfold increaseStepForBigDurations
  simp only [maxDuration_eq_max, Hour, Minute, Second]
  norm_num

/-- C3: the window resolution of `loadWorld` takes the "not available" outcome
(nil world, nil error, the cache's `lastUpdate` unchanged) if and only if
`lastUpdate` is zero or strictly before the truncated `from`; in every other case
a window is resolved and it is that window the snapshot loader is called with. -/
theorem loadWorld_notAvailable_iff {W E : Type} (from_ to_ : Time) (step : Duration)
    (lastUpdate : Time) (LoadWorld : Time → Time → Duration → Option W × Option E) :
    (resolveWindow from_ to_ step lastUpdate = Resolution.notAvailable lastUpdate ↔
      (lastUpdate = 0 ∨ lastUpdate < Truncate from_ step)) ∧
    (∀ t, resolveWindow from_ to_ step lastUpdate = Resolution.notAvailable t →
      t = lastUpdate) ∧
    ((lastUpdate = 0 ∨ lastUpdate < Truncate from_ step) →
      loadWorld from_ to_ (Except.ok step) (Except.ok lastUpdate) LoadWorld =
        (none, lastUpdate, none)) ∧
    (¬ (lastUpdate = 0 ∨ lastUpdate < Truncate from_ step) →
      ∃ f t s, resolveWindow from_ to_ step lastUpdate = Resolution.window f t s ∧
        loadWorld from_ to_ (Except.ok step) (Except.ok lastUpdate) LoadWorld =
          ((LoadWorld f t s).1, lastUpdate, (LoadWorld f t s).2)) := by
  rcases resolveWindow_cases from_ to_ step lastUpdate with ⟨hc, hr⟩ | ⟨hc, _, hr⟩ | ⟨hc, _, hr⟩
  · refine ⟨⟨fun _ => hc, fun _ => hr⟩, ?_, ?_, fun hn => absurd hc hn⟩
    · intro t ht
      rw [hr] at ht
      exact (Resolution.notAvailable.inj ht).symm
    · intro _
      simp only [loadWorld, hr]
  · refine ⟨⟨fun h => ?_, fun h => absurd h hc⟩, ?_, fun h => absurd h hc, fun _ => ?_⟩
    · rw [hr] at h
      exact Resolution.noConfusion h
    · intro t ht
      rw [hr] at ht
      exact Resolution.noConfusion ht
    · exact ⟨_, _, _, hr, by simp only [loadWorld, hr]⟩
  · refine ⟨⟨fun h => ?_, fun h => absurd h hc⟩, ?_, fun h => absurd h hc, fun _ => ?_⟩
    · rw [hr] at h
      exact Resolution.noConfusion h
    · intro t ht
      rw [hr] at ht
      exact Resolution.noConfusion ht
    · exact ⟨_, _, _, hr, by simp only [loadWorld, hr]⟩

/-- C4 fails as stated: the request `[659, 660]` with step 60 and `lastUpdate` 660 is
clamped (`availableTo = 600 < 660`) to the window `[540, 600]`, whose duration 60 is
not the requested duration 1. -/
theorem resolveWindow_clamped_duration_counterexample :
    resolveWindow 659 660 60 660 = Resolution.window 540 600 60 ∧
    Truncate (660 - 60) 60 < Truncate 660 60 ∧
    (600 : Int) - 540 ≠ 660 - 659 := by
  decide

/-- C4 (amended): whenever the window resolution clamps the window, the resolved
duration equals the duration between the requested bounds after both were truncated
down to a multiple of the step; it is the requested duration itself when both
requested bounds are multiples of the step. -/
theorem resolveWindow_clamped_duration (from_ to_ : Time) (step : Duration)
    (lastUpdate f t s : Int) (_hstep : 0 < step)
    (hclamp : Truncate (lastUpdate - step) step < Truncate to_ step)
    (h : resolveWindow from_ to_ step lastUpdate = Resolution.window f t s) :
    t - f = Truncate to_ step - Truncate from_ step ∧
    (step ∣ from_ → step ∣ to_ → t - f = to_ - from_) := by
  have key : t - f = Truncate to_ step - Truncate from_ step := by
    rw [sub_eq_add_neg lastUpdate step] at hclamp
    rcases resolveWindow_cases from_ to_ step lastUpdate with
      ⟨_, hr⟩ | ⟨_, _, hr⟩ | ⟨_, hc, _⟩
    · rw [hr] at h
      exact Resolution.noConfusion h
    · rw [hr] at h
      injection h with h1 h2 h3
      simp only [Time, Duration] at *
      omega
    · exact absurd hclamp hc
  refine ⟨key, fun hf ht => ?_⟩
  rw [key, Truncate_of_dvd _ _ hf, Truncate_of_dvd _ _ ht]

/-- The clamped duration at the request `[3600, 7200]` with step 60 and `lastUpdate` 6600: the
window `[2940, 6540]` keeps the duration 3600. -/
theorem resolveWindow_clamped_duration_witness :
    (0 : Int) < 60 ∧ Truncate (6600 - 60) 60 < Truncate 7200 60 ∧
    resolveWindow 3600 7200 60 6600 = Resolution.window 2940 6540 60 ∧
    ((6540 : Int) - 2940 = Truncate 7200 60 - Truncate 3600 60 ∧
      ((60 : Int) ∣ 3600 → (60 : Int) ∣ 7200 → (6540 : Int) - 2940 = 7200 - 3600)) :=
  ⟨by decide, by decide, by decide,
    resolveWindow_clamped_duration 3600 7200 60 6600 2940 6540 60
      (by decide) (by decide) (by decide)⟩

/-- C5 fails as stated: the request `[120, 60]` with step 60 and `lastUpdate` 1000
resolves to the window `[120, 60]`, whose `to` is before its `from`. -/
theorem resolveWindow_ordered_counterexample :
    resolveWindow 120 60 60 1000 = Resolution.window 120 60 60 ∧ (60 : Int) < 120 := by
  decide

/-- C5 (amended): whenever the requested window has `from ≤ to` and the window
resolution yields a window, for every positive configured step and every
`lastUpdate`, the window passed to the snapshot loader satisfies `from ≤ to`. -/
theorem resolveWindow_ordered (from_ to_ : Time) (step : Duration)
    (lastUpdate f t s : Int) (hstep : 0 < step) (hreq : from_ ≤ to_)
    (h : resolveWindow from_ to_ step lastUpdate = Resolution.window f t s) :
    f ≤ t := by
  have hm := Truncate_mono from_ to_ step hstep hreq
  rcases resolveWindow_cases from_ to_ step lastUpdate with
    ⟨_, hr⟩ | ⟨_, _, hr⟩ | ⟨_, _, hr⟩
  · rw [hr] at h
    exact Resolution.noConfusion h
  · rw [hr] at h
    injection h with h1 h2 h3
    simp only [Time, Duration] at *
    omega
  · rw [hr] at h
    injection h with h1 h2 h3
    simp only [Time, Duration] at *
    omega

/-- The ordering of the resolved window at the request `[3600, 7200]` with step 60 and
`lastUpdate` 6600. -/
theorem resolveWindow_ordered_witness :
    (0 : Int) < 60 ∧ (3600 : Int) ≤ 7200 ∧
    resolveWindow 3600 7200 60 6600 = Resolution.window 2940 6540 60 ∧
    (2940 : Int) ≤ 6540 :=
  ⟨by decide, by decide, by decide,
    resolveWindow_ordered 3600 7200 60 6600 2940 6540 60 (by decide) (by decide) (by decide)⟩

/-- The scenario of the specification for the staleness clamp, for every `now` at which
`lastUpdate = now − 30min` is set. -/
theorem resolveWindow_scenario (now : Int) (hnow : now - 30 * Minute ≠ 0) :
    resolveWindow (now - 2 * Hour) now Minute (now - 30 * Minute) =
      Resolution.window (Truncate (now - 31 * Minute) Minute - 2 * Hour)
        (Truncate (now - 31 * Minute) Minute) Minute := by
  rcases resolveWindow_cases (now - 2 * Hour) now Minute (now - 30 * Minute) with
    ⟨hc, _⟩ | ⟨_, _, hr⟩ | ⟨_, hc, _⟩
  · exfalso
    simp only [Truncate, Hour, Minute, Second, Time, Duration] at *
    omega
  · rw [hr]
    have hd : Truncate now Minute - Truncate (now - 2 * Hour) Minute = 2 * Hour := by
      simp only [Truncate, Hour, Minute, Second, Time, Duration]
      omega
    have ha : Truncate (now - 30 * Minute + -Minute) Minute =
        Truncate (now - 31 * Minute) Minute := by
      congr 1
      simp only [Minute, Second, Time, Duration]
      omega
    rw [hd, ha]
    rfl
  · exfalso
    simp only [Truncate, Hour, Minute, Second, Time, Duration] at *
    omega

/-- C6 fails as stated: for the request `[0, 60]` with step 60 and `lastUpdate` 120 the
resolved `to` is 60, which equals `truncate(lastUpdate − step) = 60`, although the
truncated requested `to` (60) is not later than that value. -/
theorem resolveWindow_staleness_clamp_counterexample :
    resolveWindow 0 60 60 120 = Resolution.window 0 60 60 ∧
    (60 : Int) = Truncate (120 - 60) 60 ∧
    ¬ (Truncate (120 - 60) 60 < Truncate 60 60) := by
  decide

/-- C6 (amended): whenever the window resolution yields a window, the resolved `to` is
a multiple of the configured step and never later than `truncate(lastUpdate − step)`;
it equals `truncate(lastUpdate − step)` exactly when the truncated requested `to` is
later than or equal to that value; and `from = to − (truncated to − truncated from)`.
Scenario: for every `now` with `lastUpdate = now − 30min` set (non-zero), the request
`[now − 2h, now]` with step 1 min resolves to `to = truncate(now − 31min)`,
`from = to − 2h`, step 1 min. -/
theorem resolveWindow_staleness_clamp (from_ to_ : Time) (step : Duration)
    (lastUpdate f t s : Int)
    (h : resolveWindow from_ to_ step lastUpdate = Resolution.window f t s) :
    step ∣ t ∧
    t ≤ Truncate (lastUpdate - step) step ∧
    (t = Truncate (lastUpdate - step) step ↔
      Truncate (lastUpdate - step) step ≤ Truncate to_ step) ∧
    f = t - (Truncate to_ step - Truncate from_ step) ∧
    (∀ now : Int, now - 30 * Minute ≠ 0 →
      resolveWindow (now - 2 * Hour) now Minute (now - 30 * Minute) =
        Resolution.window (Truncate (now - 31 * Minute) Minute - 2 * Hour)
          (Truncate (now - 31 * Minute) Minute) Minute) := by
  have hgen : step ∣ t ∧ t ≤ Truncate (lastUpdate - step) step ∧
      (t = Truncate (lastUpdate - step) step ↔
        Truncate (lastUpdate - step) step ≤ Truncate to_ step) ∧
      f = t - (Truncate to_ step - Truncate from_ step) := by
    rw [sub_eq_add_neg lastUpdate step]
    rcases resolveWindow_cases from_ to_ step lastUpdate with
      ⟨_, hr⟩ | ⟨_, hc, hr⟩ | ⟨_, hc, hr⟩
    · rw [hr] at h
      exact Resolution.noConfusion h
    · rw [hr] at h
      injection h with h1 h2 h3
      refine ⟨h2 ▸ Truncate_dvd _ _, ?_, ?_, ?_⟩ <;>
        simp only [Time, Duration] at * <;> omega
    · rw [hr] at h
      injection h with h1 h2 h3
      refine ⟨h2 ▸ Truncate_dvd _ _, ?_, ?_, ?_⟩ <;>
        simp only [Time, Duration] at * <;> omega
  exact ⟨hgen.1, hgen.2.1, hgen.2.2.1, hgen.2.2.2, resolveWindow_scenario⟩

/-- The staleness clamp at the request `[3600, 7200]` with step 60 and `lastUpdate` 6600: the
resolved `to` is `truncate(6600 − 60) = 6540`. -/
theorem resolveWindow_staleness_clamp_witness :
    resolveWindow 3600 7200 60 6600 = Resolution.window 2940 6540 60 ∧
    ((60 : Int) ∣ 6540 ∧
      (6540 : Int) ≤ Truncate (6600 - 60) 60 ∧
      ((6540 : Int) = Truncate (6600 - 60) 60 ↔
        Truncate (6600 - 60) 60 ≤ Truncate 7200 60) ∧
      (2940 : Int) = 6540 - (Truncate 7200 60 - Truncate 3600 60) ∧
      (∀ now : Int, now - 30 * Minute ≠ 0 →
        resolveWindow (now - 2 * Hour) now Minute (now - 30 * Minute) =
          Resolution.window (Truncate (now - 31 * Minute) Minute - 2 * Hour)
            (Truncate (now - 31 * Minute) Minute) Minute)) :=
  ⟨by decide, resolveWindow_staleness_clamp 3600 7200 60 6600 2940 6540 60 (by decide)⟩

theorem cpuByMode_foldl (modes : GoMap TimeSeries) (l : List String) (res : List Series) :
    l.foldl
      (fun res mode =>
        match modes.get? mode with
        | none => res
        | some v => res ++ [⟨mode, modeColor mode, v⟩])
      res =
    res ++ l.filterMap
      (fun mode => (modes.get? mode).map (fun v => (⟨mode, modeColor mode, v⟩ : Series))) := by
  induction l generalizing res with
  | nil => simp
  | cons a l ih =>
    rw [List.foldl_cons, ih, List.filterMap_cons]
    cases modes.get? a <;> simp

theorem cpuByMode_eq_filterMap (modes : GoMap TimeSeries) :
    cpuByMode modes =
      modeColourTable.filterMap
        (fun e => (modes.get? e.1).map (fun v => (⟨e.1, e.2, v⟩ : Series))) := by
  unfold cpuByMode
  rw [cpuByMode_foldl, List.nil_append]
  have hmap : ["user", "nice", "system", "wait", "iowait", "steal", "irq", "softirq"] =
      modeColourTable.map Prod.fst := rfl
  rw [hmap, List.filterMap_map]
  apply List.filterMap_congr
  intro e he
  simp only [modeColourTable, List.mem_cons, List.mem_singleton, List.not_mem_nil,
    or_false] at he
  rcases he with rfl | rfl | rfl | rfl | rfl | rfl | rfl | rfl <;> rfl

theorem filterMap_table_names (modes : GoMap TimeSeries) (l : List (String × String)) :
    (l.filterMap
      (fun e => (modes.get? e.1).map (fun v => (⟨e.1, e.2, v⟩ : Series)))).map
        (fun s => s.Name) =
    (l.map Prod.fst).filter (fun m => (modes.get? m).isSome) := by
  induction l with
  | nil => rfl
  | cons a l ih =>
    rw [List.filterMap_cons, List.map_cons, List.filter_cons]
    cases h : modes.get? a.1 <;> simp [ih]

/-- C7: for every mode map, `cpuByMode` returns exactly the sub-sequence of the fixed
order user, nice, system, wait, iowait, steal, irq, softirq made of the modes that are
keys of the map: each present mode once, in the declared order, with its own series
as data and the fixed colour of the table; no absent mode appears, and a map without
any listed mode gives the empty result. -/
theorem cpuByMode_spec (modes : GoMap TimeSeries) :
    cpuByMode modes =
      [("user", "blue"), ("nice", "lightGreen"), ("system", "red"), ("wait", "orange"),
       ("iowait", "orange"), ("steal", "black"), ("irq", "grey"),
       ("softirq", "yellow")].filterMap
        (fun e => (modes.get? e.1).map (fun v => (⟨e.1, e.2, v⟩ : Series))) ∧
    (cpuByMode modes).map (fun s => s.Name) =
      ["user", "nice", "system", "wait", "iowait", "steal", "irq", "softirq"].filter
        (fun m => (modes.get? m).isSome) ∧
    (∀ s ∈ cpuByMode modes, modes.get? s.Name = some s.Data ∧
      (s.Name, s.Color) ∈ modeColourTable) ∧
    ((∀ m ∈ ["user", "nice", "system", "wait", "iowait", "steal", "irq", "softirq"],
      modes.get? m = none) → cpuByMode modes = []) ∧
    cpuByMode GoMap.empty = [] := by
  refine ⟨cpuByMode_eq_filterMap modes, ?_, ?_, ?_, rfl⟩
  · rw [cpuByMode_eq_filterMap, filterMap_table_names]
    rfl
  · intro s hs
    rw [cpuByMode_eq_filterMap, List.mem_filterMap] at hs
    obtain ⟨e, he, hes⟩ := hs
    cases hg : modes.get? e.1 with
    | none => rw [hg] at hes; exact Option.noConfusion hes
    | some v =>
      rw [hg] at hes
      have hs2 : s = ⟨e.1, e.2, v⟩ := (Option.some.inj hes).symm
      subst hs2
      exact ⟨hg, he⟩
  · intro hnone
    rw [cpuByMode_eq_filterMap, List.filterMap_eq_nil_iff]
    intro e he
    have hm : e.1 ∈ modeColourTable.map Prod.fst := List.mem_map_of_mem _ he
    rw [hnone e.1 hm]
    rfl

theorem GoMap.find?_setEntries_self {V : Type} (k : String) (v : V)
    (es : List (String × V)) :
    (GoMap.setEntries k v es).find? (fun e => e.1 == k) = some (k, v) := by
  induction es with
  | nil => simp [GoMap.setEntries]
  | cons e es ih =>
    unfold GoMap.setEntries
    by_cases h : (e.1 == k) = true
    · rw [if_pos h]
      simp
    · rw [if_neg h, List.find?_cons]
      simp only [Bool.not_eq_true] at h
      rw [h]
      exact ih

theorem GoMap.find?_setEntries_ne {V : Type} (k k2 : String) (v : V) (hne : k2 ≠ k)
    (es : List (String × V)) :
    (GoMap.setEntries k v es).find? (fun e => e.1 == k2) =
      es.find? (fun e => e.1 == k2) := by
  induction es with
  | nil =>
    have : (k == k2) = false := by simpa using fun h => hne h.symm
    simp [GoMap.setEntries, this]
  | cons e es ih =>
    unfold GoMap.setEntries
    by_cases h : (e.1 == k) = true
    · rw [if_pos h]
      have hk : e.1 = k := by simpa using h
      have h1 : (k == k2) = false := by simpa using fun h => hne h.symm
      have h2 : (e.1 == k2) = false := by rw [hk]; exact h1
      simp [List.find?_cons, h1, h2]
    · rw [if_neg h, List.find?_cons, List.find?_cons, ih]

theorem GoMap.get?_set_self {V : Type} (m : GoMap V) (k : String) (v : V) :
    (m.set k v).get? k = some v := by
  unfold GoMap.get? GoMap.set
  rw [GoMap.find?_setEntries_self]
  rfl

theorem GoMap.get?_set_ne {V : Type} (m : GoMap V) (k k2 : String) (v : V) (hne : k2 ≠ k) :
    (m.set k v).get? k2 = m.get? k2 := by
  unfold GoMap.get? GoMap.set
  rw [GoMap.find?_setEntries_ne k k2 v hne]

theorem GoMap.keys_setEntries {V : Type} (k : String) (v : V) (es : List (String × V)) :
    (GoMap.setEntries k v es).map (fun e => e.1) =
      if k ∈ es.map (fun e => e.1) then es.map (fun e => e.1)
      else es.map (fun e => e.1) ++ [k] := by
  induction es with
  | nil => simp [GoMap.setEntries]
  | cons e es ih =>
    unfold GoMap.setEntries
    by_cases h : (e.1 == k) = true
    · have hk : e.1 = k := by simpa using h
      rw [if_pos h]
      simp [hk]
    · have hk : ¬ e.1 = k := by simpa using h
      rw [if_neg h, List.map_cons, ih]
      have hk2 : ¬ k = e.1 := fun h2 => hk h2.symm
      by_cases hm : k ∈ es.map (fun e => e.1)
      · simp [hm]
      · simp [hm, hk2]

theorem GoMap.keys_set {V : Type} (m : GoMap V) (k : String) (v : V) :
    (m.set k v).keys = if k ∈ m.keys then m.keys else m.keys ++ [k] :=
  GoMap.keys_setEntries k v m.entries

theorem GoMap.mem_keys_set {V : Type} (m : GoMap V) (k k2 : String) (v : V) :
    k2 ∈ (m.set k v).keys ↔ k2 ∈ m.keys ∨ k2 = k := by
  rw [GoMap.keys_set]
  split_ifs with h
  · constructor
    · exact Or.inl
    · rintro (h2 | rfl)
      · exact h2
      · exact h
  · simp

theorem GoMap.nodup_keys_set {V : Type} (m : GoMap V) (k : String) (v : V)
    (hm : m.keys.Nodup) : (m.set k v).keys.Nodup := by
  rw [GoMap.keys_set]
  split_ifs with h
  · exact hm
  · refine List.Nodup.append hm (List.nodup_singleton k) ?_
    intro a ha hk
    rw [List.mem_singleton] at hk
    exact h (hk ▸ ha)

theorem GoMap.get?_isSome_iff {V : Type} (m : GoMap V) (k : String) :
    (m.get? k).isSome = true ↔ k ∈ m.keys := by
  unfold GoMap.get? GoMap.keys
  cases m with
  | mk es =>
    induction es with
    | nil => simp
    | cons e es ih =>
      simp only [List.find?_cons, List.map_cons, List.mem_cons]
      by_cases h : (e.1 == k) = true
      · have hk : e.1 = k := by simpa using h
        simp [h, hk]
      · have hk : ¬ e.1 = k := by simpa using h
        have hk2 : ¬ k = e.1 := fun h2 => hk h2.symm
        simp only [Bool.not_eq_true] at h
        simp only [h, hk2, false_or]
        exact ih

theorem GoMap.get?_eq_none_iff {V : Type} (m : GoMap V) (k : String) :
    m.get? k = none ↔ k ∉ m.keys := by
  rw [← GoMap.get?_isSome_iff]
  cases m.get? k <;> simp

theorem AddInput_foldl (f : Reducer) (cs : List Container) (input : List TimeSeries) :
    cs.foldl (fun a c => AddInput a c.CpuUsage) (TimeSeries.aggregated f input) =
      TimeSeries.aggregated f (input ++ cs.map (fun c => c.CpuUsage)) := by
  induction cs generalizing input with
  | nil => simp
  | cons c cs ih =>
    rw [List.foldl_cons]
    show cs.foldl _ (TimeSeries.aggregated f (input ++ [c.CpuUsage])) = _
    rw [ih]
    simp

theorem usageByApp_snoc (l : List NodeInstance) (x : NodeInstance) :
    usageByApp (l ++ [x]) =
      (usageByApp l).set x.OwnerId.Name
        (x.Containers.foldl (fun a c => AddInput a c.CpuUsage)
          (match (usageByApp l).get? x.OwnerId.Name with
            | some a => a
            | none => Aggregate Reducer.NanSum)) := by
  unfold usageByApp
  rw [List.foldl_append]
  rfl

/-- The invariant of the loop building `usageByApp`: distinct keys, one per owner name met,
each holding the aggregate of the containers of the instances with that owner name. -/
theorem usageByApp_inv (instances : List NodeInstance) :
    (usageByApp instances).keys.Nodup ∧
    (∀ name, name ∈ (usageByApp instances).keys ↔
      ∃ inst ∈ instances, inst.OwnerId.Name = name) ∧
    (∀ name, name ∈ (usageByApp instances).keys →
      (usageByApp instances).get? name =
        some (TimeSeries.aggregated Reducer.NanSum
          ((instances.filter (fun j => j.OwnerId.Name == name)).flatMap
            (fun j => j.Containers.map (fun c => c.CpuUsage))))) := by
  induction instances using List.reverseRecOn with
  | nil =>
    refine ⟨List.nodup_nil, fun name => ?_, fun name h => ?_⟩
    · simp [usageByApp, GoMap.empty, GoMap.keys]
    · simp [usageByApp, GoMap.empty, GoMap.keys] at h
  | append_singleton l x ih =>
    obtain ⟨hnd, hmem, hval⟩ := ih
    rw [usageByApp_snoc]
    refine ⟨GoMap.nodup_keys_set _ _ _ hnd, fun name => ?_, fun name _ => ?_⟩
    · rw [GoMap.mem_keys_set, hmem]
      constructor
      · rintro (⟨inst, hi, hn⟩ | rfl)
        · exact ⟨inst, List.mem_append_left _ hi, hn⟩
        · exact ⟨x, by simp, rfl⟩
      · rintro ⟨inst, hi, hn⟩
        rw [List.mem_append, List.mem_singleton] at hi
        rcases hi with hi | rfl
        · exact Or.inl ⟨inst, hi, hn⟩
        · exact Or.inr hn.symm
    · by_cases hname : name = x.OwnerId.Name
      · subst hname
        rw [GoMap.get?_set_self]
        have hacc : (match (usageByApp l).get? x.OwnerId.Name with
            | some a => a
            | none => Aggregate Reducer.NanSum) =
            TimeSeries.aggregated Reducer.NanSum
              ((l.filter (fun j => j.OwnerId.Name == x.OwnerId.Name)).flatMap
                (fun j => j.Containers.map (fun c => c.CpuUsage))) := by
          by_cases hk : x.OwnerId.Name ∈ (usageByApp l).keys
          · rw [hval _ hk]
          · rw [(GoMap.get?_eq_none_iff _ _).mpr hk]
            have hnone : l.filter (fun j => j.OwnerId.Name == x.OwnerId.Name) = [] := by
              rw [List.filter_eq_nil_iff]
              intro j hj hjn
              exact hk ((hmem _).mpr ⟨j, hj, by simpa using hjn⟩)
            rw [hnone]
            rfl
        rw [hacc, AddInput_foldl, List.filter_append, List.flatMap_append]
        simp
      · rw [GoMap.get?_set_ne _ _ _ _ hname]
        have hx : (x.OwnerId.Name == name) = false := by
          simpa using fun h => hname h.symm
        have hkeys : name ∈ (usageByApp l).keys := by
          rename_i hin
          rw [GoMap.mem_keys_set] at hin
          rcases hin with hin | hin
          · exact hin
          · exact absurd hin hname
        rw [hval _ hkeys, List.filter_append]
        simp [List.filter_cons, hx]

/-- C10 fails as stated: two instances of a node owned by the different applications
`ns1/Deployment/web` and `ns2/Deployment/web` get one entry, `web`, and that one
aggregate holds the `CpuUsage` of the containers of both. -/
theorem usageByApp_counterexample :
    (⟨"ns1", "Deployment", "web"⟩ : ApplicationId) ≠ ⟨"ns2", "Deployment", "web"⟩ ∧
    (usageByApp
      [⟨"i1", ⟨"ns1", "Deployment", "web"⟩,
          [⟨"c", TimeSeries.data 1, TimeSeries.data 0, TimeSeries.data 0, TimeSeries.data 0⟩]⟩,
       ⟨"i2", ⟨"ns2", "Deployment", "web"⟩,
          [⟨"c", TimeSeries.data 2, TimeSeries.data 0, TimeSeries.data 0,
            TimeSeries.data 0⟩]⟩]).keys = ["web"] ∧
    (usageByApp
      [⟨"i1", ⟨"ns1", "Deployment", "web"⟩,
          [⟨"c", TimeSeries.data 1, TimeSeries.data 0, TimeSeries.data 0, TimeSeries.data 0⟩]⟩,
       ⟨"i2", ⟨"ns2", "Deployment", "web"⟩,
          [⟨"c", TimeSeries.data 2, TimeSeries.data 0, TimeSeries.data 0,
            TimeSeries.data 0⟩]⟩]).get? "web" =
      some (TimeSeries.aggregated Reducer.NanSum [TimeSeries.data 1, TimeSeries.data 2]) :=
  ⟨by decide, by decide, rfl⟩

/-- C10 (amended): the `usageByApp` map built from a node's instances has exactly one
entry for each distinct owner name (`OwnerId.Name`) among those instances, and the
entry of a name is the `NanSum` aggregate of the `CpuUsage` of exactly the containers of
the instances whose owner has that name, in the order of the instances; instances
whose owners have different names never share an aggregate. -/
theorem usageByApp_spec (instances : List NodeInstance) :
    (usageByApp instances).keys.Nodup ∧
    (∀ name, name ∈ (usageByApp instances).keys ↔
      ∃ inst ∈ instances, inst.OwnerId.Name = name) ∧
    (∀ inst ∈ instances,
      (usageByApp instances).get? inst.OwnerId.Name =
        some (TimeSeries.aggregated Reducer.NanSum
          ((instances.filter (fun j => j.OwnerId.Name == inst.OwnerId.Name)).flatMap
            (fun j => j.Containers.map (fun c => c.CpuUsage))))) := by
  obtain ⟨hnd, hmem, hval⟩ := usageByApp_inv instances
  exact ⟨hnd, hmem, fun inst hi => hval _ ((hmem _).mpr ⟨inst, hi, rfl⟩)⟩

/-- A lookup after get-or-create-and-update: the updated element under the same key, and
what was there before under any other key. -/
theorem find?_upsert {α : Type} (key : α → String) (mk : String → α) (k k2 : String)
    (f : α → α) (hf : ∀ x, key (f x) = key x) (hmk : key (mk k) = k) (l : List α) :
    (upsert key mk k f l).find? (fun x => key x == k2) =
      if k2 = k then some (f ((l.find? (fun x => key x == k)).getD (mk k)))
      else l.find? (fun x => key x == k2) := by
  induction l with
  | nil =>
    unfold upsert
    by_cases h : k2 = k
    · subst h
      simp [List.find?_cons, hf, hmk]
    · have h2 : (k == k2) = false := by simpa using fun h3 => h h3.symm
      simp [List.find?_cons, hf, hmk, h, h2]
  | cons x xs ih =>
    unfold upsert
    by_cases hx : (key x == k) = true
    · have hxk : key x = k := by simpa using hx
      rw [if_pos hx]
      by_cases h : k2 = k
      · subst h
        simp [List.find?_cons, hf, hxk]
      · have h2 : (k == k2) = false := by simpa using fun h3 => h h3.symm
        simp [List.find?_cons, hf, hxk, h, h2]
    · have hxk : ¬ key x = k := by simpa using hx
      rw [if_neg hx, List.find?_cons, ih]
      by_cases hx2 : (key x == k2) = true
      · have hxk2 : key x = k2 := by simpa using hx2
        have h : ¬ k2 = k := fun h3 => hxk (hxk2.trans h3)
        simp [List.find?_cons, hx2, h]
      · simp only [Bool.not_eq_true] at hx2 hx
        simp [List.find?_cons, hx2, hx]

/-- A chart lookup after `GetOrCreateChartInGroup`: the chart handed out, after the calls
made on it, under its own group and key; every other chart as before. -/
theorem chart?_GetOrCreateChartInGroup (d : Dashboard) (t k t2 k2 : String)
    (f : Chart → Chart) (hf : ∀ c, (f c).Title = c.Title) :
    (d.GetOrCreateChartInGroup t k f).chart? t2 k2 =
      if t2 = t ∧ k2 = k then some (f ((d.chart? t k).getD (Chart.new k)))
      else d.chart? t2 k2 := by
  unfold Dashboard.chart? Dashboard.GetOrCreateChartInGroup
  simp only
  rw [find?_upsert ChartGroup.Title (fun t => ⟨t, []⟩) t t2
    (fun g => g.GetOrCreateChart k f) (fun _ => rfl) rfl]
  by_cases ht : t2 = t
  · subst ht
    rw [if_pos rfl]
    show List.find? (fun c => c.Title == k2)
      (upsert Chart.Title Chart.new k f
        ((List.find? (fun x => x.Title == t2) d.ChartGroups).getD ⟨t2, []⟩).Charts) = _
    rw [find?_upsert Chart.Title Chart.new k k2 f hf rfl]
    cases hg : d.ChartGroups.find? (fun g => g.Title == t2) with
    | none => simp
    | some g => simp
  · rw [if_neg ht, if_neg (fun h => ht h.1)]

theorem seriesOf_GetOrCreateChartInGroup (d : Dashboard) (t k t2 k2 : String)
    (f : Chart → Chart) (xs : List Series) (hf : Appends f xs) :
    (d.GetOrCreateChartInGroup t k f).seriesOf t2 k2 =
      if t2 = t ∧ k2 = k then d.seriesOf t k ++ xs else d.seriesOf t2 k2 := by
  unfold Dashboard.seriesOf
  rw [chart?_GetOrCreateChartInGroup d t k t2 k2 f (fun c => (hf c).1)]
  by_cases h : t2 = t ∧ k2 = k
  · rw [if_pos h, if_pos h]
    cases d.chart? t k with
    | none => simpa [Chart.new] using (hf (Chart.new k)).2
    | some c => simpa using (hf c).2
  · rw [if_neg h, if_neg h]

theorem SetThreshold_Title (c : Chart) (name : String) (data : TimeSeries) (r : Reducer) :
    (c.SetThreshold name data r).Title = c.Title := by
  unfold Chart.SetThreshold
  split <;> rfl

theorem SetThreshold_Series (c : Chart) (name : String) (data : TimeSeries) (r : Reducer) :
    (c.SetThreshold name data r).Series = c.Series := by
  unfold Chart.SetThreshold
  split <;> rfl

theorem AddMany_Title (series : List (String × TimeSeries)) (c : Chart) :
    (c.AddMany series).Title = c.Title := by
  unfold Chart.AddMany
  induction series generalizing c with
  | nil => rfl
  | cons s series ih =>
    rw [List.foldl_cons, ih]
    rfl

theorem AddMany_Series (series : List (String × TimeSeries)) (c : Chart) :
    (c.AddMany series).Series =
      c.Series ++ series.map (fun s => (⟨s.1, "", s.2⟩ : Series)) := by
  unfold Chart.AddMany
  induction series generalizing c with
  | nil => simp
  | cons s series ih =>
    rw [List.foldl_cons, ih]
    simp [Chart.AddSeries]

theorem foldl_append_Series (xs : List Series) (c : Chart) :
    (xs.foldl (fun byMode s => { byMode with Series := byMode.Series ++ [s] }) c).Title =
      c.Title ∧
    (xs.foldl (fun byMode s => { byMode with Series := byMode.Series ++ [s] }) c).Series =
      c.Series ++ xs := by
  induction xs generalizing c with
  | nil => simp
  | cons s xs ih =>
    rw [List.foldl_cons]
    obtain ⟨h1, h2⟩ := ih { c with Series := c.Series ++ [s] }
    rw [h1, h2]
    simp

theorem Appends_usage (name : String) (usage limit : TimeSeries) :
    Appends (fun ch => (ch.AddSeries name usage).SetThreshold "limit" limit Reducer.Max)
      [⟨name, "", usage⟩] := by
  intro c
  exact ⟨by rw [SetThreshold_Title]; rfl, by rw [SetThreshold_Series]; rfl⟩

theorem Appends_AddSeries (name : String) (data : TimeSeries) :
    Appends (fun ch => ch.AddSeries name data) [⟨name, "", data⟩] :=
  fun _ => ⟨rfl, rfl⟩

theorem Appends_overview (name : String) (data : TimeSeries) :
    Appends (fun ch => (ch.AddSeries name data).Feature) [⟨name, "", data⟩] :=
  fun _ => ⟨rfl, rfl⟩

theorem Appends_byMode (xs : List Series) :
    Appends
      (fun ch =>
        xs.foldl (fun byMode s => { byMode with Series := byMode.Series ++ [s] })
          ch.Sorted.Stacked)
      xs :=
  fun c => foldl_append_Series xs c.Sorted.Stacked

theorem Appends_consumers (capacity : TimeSeries) (top : List (String × TimeSeries)) :
    Appends
      (fun ch =>
        ((ch.Stacked.Sorted).SetThreshold "total" capacity Reducer.Any).AddMany top)
      (top.map (fun s => (⟨s.1, "", s.2⟩ : Series))) := by
  intro c
  refine ⟨?_, ?_⟩
  · show (Chart.AddMany _ top).Title = _
    rw [AddMany_Title, SetThreshold_Title]
    rfl
  · show (Chart.AddMany _ top).Series = _
    rw [AddMany_Series, SetThreshold_Series]
    rfl

theorem cpuContainer_chart?_frame (i : Instance) (d : Dashboard) (c : Container)
    (t2 k2 : String) (h1 : t2 ≠ "CPU usage of container <selector>, cores")
    (h2 : t2 ≠ "CPU delay of container <selector>, seconds/second")
    (h3 : t2 ≠ "Throttled time of container <selector>, seconds/second") :
    (cpuContainer i d c).chart? t2 k2 = d.chart? t2 k2 := by
  unfold cpuContainer
  simp only
  rw [chart?_GetOrCreateChartInGroup _ _ _ _ _ _ (fun c => (Appends_AddSeries _ _ c).1),
    if_neg (fun h => h3 h.1),
    chart?_GetOrCreateChartInGroup _ _ _ _ _ _ (fun c => (Appends_AddSeries _ _ c).1),
    if_neg (fun h => h2 h.1),
    chart?_GetOrCreateChartInGroup _ _ _ _ _ _ (fun c => (Appends_usage _ _ _ c).1),
    if_neg (fun h => h1 h.1)]

theorem cpuContainer_seriesOf (i : Instance) (d : Dashboard) (c : Container)
    (t : String) (sel : Container → TimeSeries) (h : ContainerChart t sel) (n : String) :
    (cpuContainer i d c).seriesOf t n =
      d.seriesOf t n ++ if n = c.Name then [⟨i.Name, "", sel c⟩] else [] := by
  have e1 : ("CPU usage of container <selector>, cores" =
      "CPU delay of container <selector>, seconds/second") = False := eq_false (by decide)
  have e2 : ("CPU usage of container <selector>, cores" =
      "Throttled time of container <selector>, seconds/second") = False :=
    eq_false (by decide)
  have e3 : ("CPU delay of container <selector>, seconds/second" =
      "Throttled time of container <selector>, seconds/second") = False :=
    eq_false (by decide)
  have e4 : ("CPU delay of container <selector>, seconds/second" =
      "CPU usage of container <selector>, cores") = False := eq_false (by decide)
  have e5 : ("Throttled time of container <selector>, seconds/second" =
      "CPU usage of container <selector>, cores") = False := eq_false (by decide)
  have e6 : ("Throttled time of container <selector>, seconds/second" =
      "CPU delay of container <selector>, seconds/second") = False := eq_false (by decide)
  unfold cpuContainer
  rcases h with ⟨rfl, rfl⟩ | ⟨rfl, rfl⟩ | ⟨rfl, rfl⟩ <;>
    simp only [seriesOf_GetOrCreateChartInGroup _ _ _ _ _ _ _ (Appends_AddSeries _ _),
      seriesOf_GetOrCreateChartInGroup _ _ _ _ _ _ _ (Appends_usage _ _ _),
      e1, e2, e3, e4, e5, e6, false_and, true_and, if_false] <;>
    by_cases hn : n = c.Name <;>
    simp [hn]

theorem foldl_cpuContainer_chart?_frame (i : Instance) (cs : List Container)
    (d : Dashboard) (t2 k2 : String)
    (h1 : t2 ≠ "CPU usage of container <selector>, cores")
    (h2 : t2 ≠ "CPU delay of container <selector>, seconds/second")
    (h3 : t2 ≠ "Throttled time of container <selector>, seconds/second") :
    (cs.foldl (cpuContainer i) d).chart? t2 k2 = d.chart? t2 k2 := by
  induction cs generalizing d with
  | nil => rfl
  | cons c cs ih => rw [List.foldl_cons, ih, cpuContainer_chart?_frame i d c t2 k2 h1 h2 h3]

theorem foldl_cpuContainer_seriesOf (i : Instance) (cs : List Container) (d : Dashboard)
    (t : String) (sel : Container → TimeSeries) (h : ContainerChart t sel) (n : String) :
    (cs.foldl (cpuContainer i) d).seriesOf t n =
      d.seriesOf t n ++
        (cs.filter (fun c => c.Name == n)).map (fun c => (⟨i.Name, "", sel c⟩ : Series)) := by
  induction cs generalizing d with
  | nil => simp
  | cons c cs ih =>
    rw [List.foldl_cons, ih, cpuContainer_seriesOf i d c t sel h n, List.filter_cons]
    by_cases hn : n = c.Name
    · have hb : (c.Name == n) = true := by simpa using hn.symm
      rw [if_pos hn, if_pos hb]
      simp
    · have hb : ¬ (c.Name == n) = true := by simpa using fun h2 => hn h2.symm
      rw [if_neg hn, if_neg hb]
      simp

theorem NodeChart_ne_container (t : String) (h : NodeChart t) :
    t ≠ "CPU usage of container <selector>, cores" ∧
    t ≠ "CPU delay of container <selector>, seconds/second" ∧
    t ≠ "Throttled time of container <selector>, seconds/second" := by
  rcases h with rfl | rfl <;> decide

theorem ContainerChart_not_node (t : String) (sel : Container → TimeSeries)
    (h : ContainerChart t sel) :
    t ≠ "Node CPU usage <selector>, %" ∧ t ≠ "CPU consumers on <selector>, cores" := by
  rcases h with ⟨rfl, _⟩ | ⟨rfl, _⟩ | ⟨rfl, _⟩ <;> decide

theorem cpuNode_chart? (Top : GoMap TimeSeries → Reducer → Nat → List (String × TimeSeries))
    (d : Dashboard) (node : Node) (t k : String) :
    (cpuNode Top d node).chart? t k =
      if t = "CPU consumers on <selector>, cores" ∧ k = node.Name then
        some ((fun ch =>
          ((ch.Stacked.Sorted).SetThreshold "total" node.CpuCapacity
            Reducer.Any).AddMany (Top (usageByApp node.Instances) Reducer.NanSum 5))
          ((d.chart? "CPU consumers on <selector>, cores" node.Name).getD
            (Chart.new node.Name)))
      else if t = "Node CPU usage <selector>, %" ∧ k = node.Name then
        some ((fun ch =>
          (cpuByMode node.CpuUsageByMode).foldl
            (fun byMode s => { byMode with Series := byMode.Series ++ [s] })
            ch.Sorted.Stacked)
          (((if node.Name = "overview" then
              some ((fun ch => (ch.AddSeries node.Name node.CpuUsagePercent).Feature)
                ((d.chart? "Node CPU usage <selector>, %" "overview").getD
                  (Chart.new "overview")))
            else d.chart? "Node CPU usage <selector>, %" node.Name)).getD
            (Chart.new node.Name)))
      else if t = "Node CPU usage <selector>, %" ∧ k = "overview" then
        some ((fun ch => (ch.AddSeries node.Name node.CpuUsagePercent).Feature)
          ((d.chart? "Node CPU usage <selector>, %" "overview").getD (Chart.new "overview")))
      else d.chart? t k := by
  have e1 : ("CPU consumers on <selector>, cores" = "Node CPU usage <selector>, %") = False :=
    eq_false (by decide)
  unfold cpuNode
  simp only [chart?_GetOrCreateChartInGroup _ _ _ _ _ _ (fun c => (Appends_consumers _ _ c).1),
    chart?_GetOrCreateChartInGroup _ _ _ _ _ _ (fun c => (Appends_byMode _ c).1),
    chart?_GetOrCreateChartInGroup _ _ _ _ _ _ (fun c => (Appends_overview _ _ c).1),
    e1, false_and, true_and, if_false]

theorem cpuNode_NodeEq (Top : GoMap TimeSeries → Reducer → Nat → List (String × TimeSeries))
    (d1 d2 : Dashboard) (node : Node) (h : NodeEq d1 d2) :
    NodeEq (cpuNode Top d1 node) (cpuNode Top d2 node) := by
  intro t k ht
  rw [cpuNode_chart?, cpuNode_chart?, h _ _ (Or.inl rfl), h _ _ (Or.inl rfl),
    h _ _ (Or.inr rfl), h t k ht]

theorem seriesOf_eq_of_chart? (d1 d2 : Dashboard) (t k : String)
    (h : d1.chart? t k = d2.chart? t k) : d1.seriesOf t k = d2.seriesOf t k := by
  unfold Dashboard.seriesOf
  rw [h]

theorem cpuNode_chart?_frame
    (Top : GoMap TimeSeries → Reducer → Nat → List (String × TimeSeries))
    (d : Dashboard) (node : Node) (t k : String) (ht : ¬ NodeChart t) :
    (cpuNode Top d node).chart? t k = d.chart? t k := by
  rw [cpuNode_chart?, if_neg (fun h => ht (Or.inr h.1)), if_neg (fun h => ht (Or.inl h.1)),
    if_neg (fun h => ht (Or.inl h.1))]

theorem cpuInstance_container_seriesOf
    (Top : GoMap TimeSeries → Reducer → Nat → List (String × TimeSeries))
    (st : CpuState) (i : Instance) (t : String) (sel : Container → TimeSeries)
    (h : ContainerChart t sel) (n : String) :
    (cpuInstance Top st i).dash.seriesOf t n =
      st.dash.seriesOf t n ++
        (i.Containers.filter (fun c => c.Name == n)).map
          (fun c => (⟨i.Name, "", sel c⟩ : Series)) := by
  obtain ⟨hN, hC⟩ := ContainerChart_not_node t sel h
  unfold cpuInstance
  simp only
  cases i.Node with
  | none => exact foldl_cpuContainer_seriesOf i _ _ t sel h n
  | some node =>
    simp only
    cases st.relevantNodes.get? node.Name with
    | some _ => exact foldl_cpuContainer_seriesOf i _ _ t sel h n
    | none =>
      simp only
      rw [seriesOf_eq_of_chart? _ _ t n
        (cpuNode_chart?_frame Top _ node t n (fun hn => hn.elim hN hC))]
      exact foldl_cpuContainer_seriesOf i _ _ t sel h n

theorem foldl_cpuInstance_container_seriesOf
    (Top : GoMap TimeSeries → Reducer → Nat → List (String × TimeSeries))
    (l : List Instance) (st : CpuState) (t : String) (sel : Container → TimeSeries)
    (h : ContainerChart t sel) (n : String) :
    (l.foldl (cpuInstance Top) st).dash.seriesOf t n =
      st.dash.seriesOf t n ++
        l.flatMap (fun i =>
          (i.Containers.filter (fun c => c.Name == n)).map
            (fun c => (⟨i.Name, "", sel c⟩ : Series))) := by
  induction l generalizing st with
  | nil => simp
  | cons i l ih =>
    rw [List.foldl_cons, ih, cpuInstance_container_seriesOf Top st i t sel h n]
    simp

theorem cpu_container_seriesOf
    (Top : GoMap TimeSeries → Reducer → Nat → List (String × TimeSeries))
    (app : Application) (t : String) (sel : Container → TimeSeries)
    (h : ContainerChart t sel) (n : String) :
    (cpu Top app).seriesOf t n =
      app.Instances.flatMap (fun i =>
        (i.Containers.filter (fun c => c.Name == n)).map
          (fun c => (⟨i.Name, "", sel c⟩ : Series))) := by
  unfold cpu
  rw [foldl_cpuInstance_container_seriesOf Top _ _ t sel h n]
  rfl

theorem foldl_cpuContainer_NodeEq (i : Instance) (cs : List Container) (d : Dashboard) :
    NodeEq (cs.foldl (cpuContainer i) d) d := by
  intro t k ht
  obtain ⟨h1, h2, h3⟩ := NodeChart_ne_container t ht
  exact foldl_cpuContainer_chart?_frame i cs d t k h1 h2 h3

theorem NodeEq_trans {d1 d2 d3 : Dashboard} (h12 : NodeEq d1 d2) (h23 : NodeEq d2 d3) :
    NodeEq d1 d3 :=
  fun t k ht => (h12 t k ht).trans (h23 t k ht)

theorem NodeEq_symm {d1 d2 : Dashboard} (h : NodeEq d1 d2) : NodeEq d2 d1 :=
  fun t k ht => (h t k ht).symm

theorem cpuInstance_congr
    (Top : GoMap TimeSeries → Reducer → Nat → List (String × TimeSeries))
    (st1 st2 : CpuState) (i : Instance) (hr : st1.relevantNodes = st2.relevantNodes)
    (hd : NodeEq st1.dash st2.dash) :
    (cpuInstance Top st1 i).relevantNodes = (cpuInstance Top st2 i).relevantNodes ∧
    NodeEq (cpuInstance Top st1 i).dash (cpuInstance Top st2 i).dash := by
  have hc : NodeEq (i.Containers.foldl (cpuContainer i) st1.dash)
      (i.Containers.foldl (cpuContainer i) st2.dash) :=
    NodeEq_trans (NodeEq_trans (foldl_cpuContainer_NodeEq i _ st1.dash) hd)
      (NodeEq_symm (foldl_cpuContainer_NodeEq i _ st2.dash))
  unfold cpuInstance
  simp only
  rw [← hr]
  cases i.Node with
  | none => exact ⟨rfl, hc⟩
  | some node =>
    simp only
    cases st1.relevantNodes.get? node.Name with
    | some _ => exact ⟨rfl, hc⟩
    | none => exact ⟨rfl, cpuNode_NodeEq Top _ _ node hc⟩

theorem cpuInstance_no_node
    (Top : GoMap TimeSeries → Reducer → Nat → List (String × TimeSeries))
    (st : CpuState) (i : Instance) (hi : i.Node = none) :
    (cpuInstance Top st i).relevantNodes = st.relevantNodes ∧
    NodeEq (cpuInstance Top st i).dash st.dash := by
  unfold cpuInstance
  simp only [hi]
  exact ⟨trivial, foldl_cpuContainer_NodeEq i _ st.dash⟩

theorem foldl_cpuInstance_filter_node
    (Top : GoMap TimeSeries → Reducer → Nat → List (String × TimeSeries))
    (l : List Instance) (st1 st2 : CpuState) (hr : st1.relevantNodes = st2.relevantNodes)
    (hd : NodeEq st1.dash st2.dash) :
    NodeEq (l.foldl (cpuInstance Top) st1).dash
      ((l.filter (fun i => i.Node.isSome)).foldl (cpuInstance Top) st2).dash := by
  induction l generalizing st1 st2 with
  | nil => exact hd
  | cons i l ih =>
    rw [List.foldl_cons, List.filter_cons]
    cases hi : i.Node with
    | none =>
      obtain ⟨h1, h2⟩ := cpuInstance_no_node Top st1 i hi
      simp only [Option.isSome_none, Bool.false_eq_true, if_false]
      exact ih _ _ (h1.trans hr) (NodeEq_trans h2 hd)
    | some node =>
      obtain ⟨h1, h2⟩ := cpuInstance_congr Top st1 st2 i hr hd
      simp only [Option.isSome_some, if_true, List.foldl_cons]
      exact ih _ _ h1 h2

/-- C9: for every application and every container name `n`, the usage chart, the delay
chart and the throttling chart keyed by `n` each hold exactly one series, named after
the instance, per (instance, container) pair whose container is named `n`, in the
order of the instances; this does not depend on the instances having a node (erasing
every node changes none of these charts), and the instances without a node add
nothing to the node-level charts (dropping them changes no chart of the two
node-level groups). -/
theorem cpu_container_charts
    (Top : GoMap TimeSeries → Reducer → Nat → List (String × TimeSeries))
    (app : Application) (n : String) :
    (cpu Top app).seriesOf "CPU usage of container <selector>, cores" n =
      app.Instances.flatMap (fun i =>
        (i.Containers.filter (fun c => c.Name == n)).map
          (fun c => (⟨i.Name, "", c.CpuUsage⟩ : Series))) ∧
    (cpu Top app).seriesOf "CPU delay of container <selector>, seconds/second" n =
      app.Instances.flatMap (fun i =>
        (i.Containers.filter (fun c => c.Name == n)).map
          (fun c => (⟨i.Name, "", c.CpuDelay⟩ : Series))) ∧
    (cpu Top app).seriesOf "Throttled time of container <selector>, seconds/second" n =
      app.Instances.flatMap (fun i =>
        (i.Containers.filter (fun c => c.Name == n)).map
          (fun c => (⟨i.Name, "", c.ThrottledTime⟩ : Series))) ∧
    (∀ title ∈ ["CPU usage of container <selector>, cores",
        "CPU delay of container <selector>, seconds/second",
        "Throttled time of container <selector>, seconds/second"],
      (cpu Top ⟨app.Id, app.Instances.map
        (fun i => ⟨i.Name, i.OwnerId, i.Containers, none⟩)⟩).seriesOf title n =
      (cpu Top app).seriesOf title n) ∧
    (∀ title ∈ ["Node CPU usage <selector>, %", "CPU consumers on <selector>, cores"],
      ∀ key, (cpu Top app).chart? title key =
        (cpu Top ⟨app.Id, app.Instances.filter (fun i => i.Node.isSome)⟩).chart? title key) := by
  have hU : ContainerChart "CPU usage of container <selector>, cores" Container.CpuUsage :=
    Or.inl ⟨rfl, rfl⟩
  have hD : ContainerChart "CPU delay of container <selector>, seconds/second"
      Container.CpuDelay := Or.inr (Or.inl ⟨rfl, rfl⟩)
  have hT : ContainerChart "Throttled time of container <selector>, seconds/second"
      Container.ThrottledTime := Or.inr (Or.inr ⟨rfl, rfl⟩)
  refine ⟨cpu_container_seriesOf Top app _ _ hU n, cpu_container_seriesOf Top app _ _ hD n,
    cpu_container_seriesOf Top app _ _ hT n, ?_, ?_⟩
  · intro title ht
    simp only [List.mem_cons, List.mem_singleton, List.not_mem_nil, or_false] at ht
    rcases ht with rfl | rfl | rfl
    · rw [cpu_container_seriesOf Top _ _ _ hU n, cpu_container_seriesOf Top _ _ _ hU n,
        List.flatMap_map]
    · rw [cpu_container_seriesOf Top _ _ _ hD n, cpu_container_seriesOf Top _ _ _ hD n,
        List.flatMap_map]
    · rw [cpu_container_seriesOf Top _ _ _ hT n, cpu_container_seriesOf Top _ _ _ hT n,
        List.flatMap_map]
  · intro title ht key
    simp only [List.mem_cons, List.mem_singleton, List.not_mem_nil, or_false] at ht
    exact foldl_cpuInstance_filter_node Top app.Instances _ _ rfl (fun _ _ _ => rfl)
      title key ht

theorem cpuNode_seriesOf
    (Top : GoMap TimeSeries → Reducer → Nat → List (String × TimeSeries))
    (d : Dashboard) (node : Node) (hne : node.Name ≠ "overview") (t k : String) :
    (cpuNode Top d node).seriesOf t k =
      if t = "CPU consumers on <selector>, cores" ∧ k = node.Name then
        d.seriesOf "CPU consumers on <selector>, cores" node.Name ++
          (Top (usageByApp node.Instances) Reducer.NanSum 5).map
            (fun s => (⟨s.1, "", s.2⟩ : Series))
      else if t = "Node CPU usage <selector>, %" ∧ k = node.Name then
        d.seriesOf "Node CPU usage <selector>, %" node.Name ++ cpuByMode node.CpuUsageByMode
      else if t = "Node CPU usage <selector>, %" ∧ k = "overview" then
        d.seriesOf "Node CPU usage <selector>, %" "overview" ++
          [⟨node.Name, "", node.CpuUsagePercent⟩]
      else d.seriesOf t k := by
  have e1 : ("CPU consumers on <selector>, cores" = "Node CPU usage <selector>, %") = False :=
    eq_false (by decide)
  have e2 : (node.Name = "overview") = False := eq_false hne
  unfold cpuNode
  simp only [seriesOf_GetOrCreateChartInGroup _ _ _ _ _ _ _ (Appends_consumers _ _),
    seriesOf_GetOrCreateChartInGroup _ _ _ _ _ _ _ (Appends_byMode _),
    seriesOf_GetOrCreateChartInGroup _ _ _ _ _ _ _ (Appends_overview _ _),
    e1, e2, false_and, and_false, true_and, if_false]

theorem foldl_cpuContainer_seriesOf_node (i : Instance) (cs : List Container)
    (d : Dashboard) (t k : String) (ht : NodeChart t) :
    (cs.foldl (cpuContainer i) d).seriesOf t k = d.seriesOf t k :=
  seriesOf_eq_of_chart? _ _ t k (foldl_cpuContainer_NodeEq i cs d t k ht)

theorem cpuState_snoc
    (Top : GoMap TimeSeries → Reducer → Nat → List (String × TimeSeries))
    (l : List Instance) (x : Instance) :
    cpuState Top (l ++ [x]) = cpuInstance Top (cpuState Top l) x := by
  unfold cpuState
  rw [List.foldl_append]
  rfl

theorem CpuInv_keep
    (Top : GoMap TimeSeries → Reducer → Nat → List (String × TimeSeries))
    (l : List Instance) (st : CpuState) (x : Instance) (d : Dashboard)
    (hinv : CpuInv Top l st)
    (hd : ∀ t k, NodeChart t → d.seriesOf t k = st.dash.seriesOf t k)
    (hx : ∀ nd, x.Node = some nd → nd.Name ∈ st.relevantNodes.keys) :
    CpuInv Top (l ++ [x]) ⟨d, st.relevantNodes⟩ := by
  obtain ⟨ha, hb1, hb2, hc, hdd⟩ := hinv
  refine ⟨fun n => ?_, ?_, fun n => ?_, fun n nd0 hget => ?_, fun n hn => ?_⟩
  · rw [ha]
    constructor
    · rintro ⟨i, hi, nd, h1, h2⟩
      exact ⟨i, List.mem_append_left _ hi, nd, h1, h2⟩
    · rintro ⟨i, hi, nd, h1, h2⟩
      rw [List.mem_append, List.mem_singleton] at hi
      rcases hi with hi | rfl
      · exact ⟨i, hi, nd, h1, h2⟩
      · exact (ha n).mp (h2 ▸ hx nd h1)
  · show ((d.seriesOf _ _).map _).Nodup
    rw [hd _ _ (Or.inl rfl)]
    exact hb1
  · show n ∈ (d.seriesOf _ _).map _ ↔ _
    rw [hd _ _ (Or.inl rfl)]
    exact hb2 n
  · obtain ⟨h1, ⟨i, hi, h2⟩, h3, h4⟩ := hc n nd0 hget
    refine ⟨h1, ⟨i, List.mem_append_left _ hi, h2⟩, ?_, ?_⟩
    · show d.seriesOf _ _ = _
      rw [hd _ _ (Or.inl rfl)]
      exact h3
    · show d.seriesOf _ _ = _
      rw [hd _ _ (Or.inr rfl)]
      exact h4
  · obtain ⟨h1, h2⟩ := hdd n hn
    refine ⟨fun hne => ?_, ?_⟩
    · show d.seriesOf _ _ = _
      rw [hd _ _ (Or.inl rfl)]
      exact h1 hne
    · show d.seriesOf _ _ = _
      rw [hd _ _ (Or.inr rfl)]
      exact h2

theorem CpuInv_new
    (Top : GoMap TimeSeries → Reducer → Nat → List (String × TimeSeries))
    (l : List Instance) (st : CpuState) (x : Instance) (node : Node) (d : Dashboard)
    (hinv : CpuInv Top l st)
    (Hl : ∀ i ∈ l, ∀ nd, i.Node = some nd → nd.Name ≠ "overview")
    (hd : ∀ t k, NodeChart t → d.seriesOf t k = st.dash.seriesOf t k)
    (hx : x.Node = some node) (hne : node.Name ≠ "overview")
    (hnew : st.relevantNodes.get? node.Name = none) :
    CpuInv Top (l ++ [x]) ⟨cpuNode Top d node, st.relevantNodes.set node.Name node⟩ := by
  obtain ⟨ha, hb1, hb2, hc, hdd⟩ := hinv
  have hm : node.Name ∉ st.relevantNodes.keys := (GoMap.get?_eq_none_iff _ _).mp hnew
  have e1 : ("CPU consumers on <selector>, cores" = "Node CPU usage <selector>, %") = False :=
    eq_false (by decide)
  have e2 : ("Node CPU usage <selector>, %" = "CPU consumers on <selector>, cores") = False :=
    eq_false (by decide)
  have e3 : ("overview" = node.Name) = False := eq_false (fun h => hne h.symm)
  have hO : (cpuNode Top d node).seriesOf "Node CPU usage <selector>, %" "overview" =
      st.dash.seriesOf "Node CPU usage <selector>, %" "overview" ++
        [⟨node.Name, "", node.CpuUsagePercent⟩] := by
    rw [cpuNode_seriesOf Top d node hne]
    simp only [e2, e3, false_and, and_false, if_false, true_and, if_true]
    rw [hd "Node CPU usage <selector>, %" "overview" (Or.inl rfl)]
  have hM : ∀ k, k ≠ "overview" →
      (cpuNode Top d node).seriesOf "Node CPU usage <selector>, %" k =
        if k = node.Name then
          st.dash.seriesOf "Node CPU usage <selector>, %" node.Name ++
            cpuByMode node.CpuUsageByMode
        else st.dash.seriesOf "Node CPU usage <selector>, %" k := by
    intro k hk
    have e4 : (k = "overview") = False := eq_false hk
    rw [cpuNode_seriesOf Top d node hne]
    simp only [e2, e4, false_and, and_false, if_false, true_and]
    rw [hd "Node CPU usage <selector>, %" node.Name (Or.inl rfl),
      hd "Node CPU usage <selector>, %" k (Or.inl rfl)]
  have hC : ∀ k, (cpuNode Top d node).seriesOf "CPU consumers on <selector>, cores" k =
        if k = node.Name then
          st.dash.seriesOf "CPU consumers on <selector>, cores" node.Name ++
            (Top (usageByApp node.Instances) Reducer.NanSum 5).map
              (fun s => (⟨s.1, "", s.2⟩ : Series))
        else st.dash.seriesOf "CPU consumers on <selector>, cores" k := by
    intro k
    rw [cpuNode_seriesOf Top d node hne]
    simp only [e1, false_and, if_false, true_and]
    rw [hd "CPU consumers on <selector>, cores" node.Name (Or.inr rfl),
      hd "CPU consumers on <selector>, cores" k (Or.inr rfl)]
  refine ⟨fun n => ?_, ?_, fun n => ?_, fun n nd0 hget => ?_, fun n hn => ?_⟩
  · show n ∈ (st.relevantNodes.set node.Name node).keys ↔ _
    rw [GoMap.mem_keys_set, ha]
    constructor
    · rintro (⟨i, hi, nd, h1, h2⟩ | rfl)
      · exact ⟨i, List.mem_append_left _ hi, nd, h1, h2⟩
      · exact ⟨x, by simp, node, hx, rfl⟩
    · rintro ⟨i, hi, nd, h1, h2⟩
      rw [List.mem_append, List.mem_singleton] at hi
      rcases hi with hi | rfl
      · exact Or.inl ⟨i, hi, nd, h1, h2⟩
      · rw [hx] at h1
        exact Or.inr (by rw [← h2, ← Option.some.inj h1])
  · show ((Dashboard.seriesOf (cpuNode Top d node) _ _).map _).Nodup
    rw [hO, List.map_append, List.nodup_append]
    refine ⟨hb1, List.nodup_singleton _, ?_⟩
    intro a ha1 ha2
    simp only [List.map_cons, List.map_nil, List.mem_singleton] at ha2
    exact hm ((hb2 a).mp ha1 |> fun h => ha2 ▸ h)
  · show n ∈ (Dashboard.seriesOf (cpuNode Top d node) _ _).map _ ↔
      n ∈ (st.relevantNodes.set node.Name node).keys
    rw [hO, GoMap.mem_keys_set, List.map_append, List.mem_append, hb2 n]
    simp
  · have hget2 : (st.relevantNodes.set node.Name node).get? n = some nd0 := hget
    show nd0.Name = n ∧ (∃ i ∈ l ++ [x], i.Node = some nd0) ∧
      (cpuNode Top d node).seriesOf _ n = _ ∧ (cpuNode Top d node).seriesOf _ n = _
    by_cases hn : n = node.Name
    · subst hn
      rw [GoMap.get?_set_self] at hget2
      have hnd : node = nd0 := Option.some.inj hget2
      subst hnd
      obtain ⟨h1, h2⟩ := hdd node.Name hm
      refine ⟨rfl, ⟨x, by simp, hx⟩, ?_, ?_⟩
      · rw [hM _ hne, if_pos rfl, h1 hne, List.nil_append]
      · rw [hC, if_pos rfl, h2, List.nil_append]
    · rw [GoMap.get?_set_ne _ _ _ _ hn] at hget2
      obtain ⟨h1, ⟨i, hi, h2⟩, h3, h4⟩ := hc n nd0 hget2
      have hno : n ≠ "overview" := h1 ▸ Hl i hi nd0 h2
      refine ⟨h1, ⟨i, List.mem_append_left _ hi, h2⟩, ?_, ?_⟩
      · rw [hM _ hno, if_neg hn, h3]
      · rw [hC, if_neg hn, h4]
  · have hn2 : n ∉ (st.relevantNodes.set node.Name node).keys := hn
    rw [GoMap.mem_keys_set, not_or] at hn2
    obtain ⟨h1, h2⟩ := hdd n hn2.1
    refine ⟨fun hno => ?_, ?_⟩
    · show (cpuNode Top d node).seriesOf _ n = _
      rw [hM _ hno, if_neg hn2.2, h1 hno]
    · show (cpuNode Top d node).seriesOf _ n = _
      rw [hC, if_neg hn2.2, h2]

theorem CpuInv_step
    (Top : GoMap TimeSeries → Reducer → Nat → List (String × TimeSeries))
    (l : List Instance) (st : CpuState) (x : Instance)
    (hinv : CpuInv Top l st)
    (Hl : ∀ i ∈ l, ∀ nd, i.Node = some nd → nd.Name ≠ "overview")
    (Hx : ∀ nd, x.Node = some nd → nd.Name ≠ "overview") :
    CpuInv Top (l ++ [x]) (cpuInstance Top st x) := by
  have hd : ∀ t k, NodeChart t →
      (x.Containers.foldl (cpuContainer x) st.dash).seriesOf t k = st.dash.seriesOf t k :=
    fun t k ht => foldl_cpuContainer_seriesOf_node x _ st.dash t k ht
  unfold cpuInstance
  simp only
  cases hx : x.Node with
  | none =>
    exact CpuInv_keep Top l st x _ hinv hd (fun nd h => by rw [hx] at h; cases h)
  | some node =>
    simp only
    cases hg : st.relevantNodes.get? node.Name with
    | some v =>
      refine CpuInv_keep Top l st x _ hinv hd (fun nd h => ?_)
      rw [hx] at h
      have hnd : node = nd := Option.some.inj h
      subst hnd
      rw [← GoMap.get?_isSome_iff, hg]
      rfl
    | none =>
      exact CpuInv_new Top l st x node _ hinv Hl hd hx (Hx node hx) hg

/-- The loop invariant holds after any list of instances none of whose nodes is named
"overview". -/
theorem cpuState_inv
    (Top : GoMap TimeSeries → Reducer → Nat → List (String × TimeSeries))
    (l : List Instance)
    (H : ∀ i ∈ l, ∀ nd, i.Node = some nd → nd.Name ≠ "overview") :
    CpuInv Top l (cpuState Top l) := by
  induction l using List.reverseRecOn with
  | nil =>
    refine ⟨fun n => ?_, ?_, fun n => ?_, fun n nd0 hget => ?_, fun n _ => ⟨fun _ => rfl, rfl⟩⟩
    · simp [cpuState, GoMap.empty, GoMap.keys]
    · exact List.nodup_nil
    · simp [cpuState, GoMap.empty, GoMap.keys, Dashboard.seriesOf, Dashboard.chart?]
    · exact Option.noConfusion hget
  | append_singleton l x ih =>
    rw [cpuState_snoc]
    exact CpuInv_step Top l _ x
      (ih (fun i hi => H i (List.mem_append_left _ hi)))
      (fun i hi => H i (List.mem_append_left _ hi))
      (H x (by simp))

/-- C8, the code at the failing input: for two instances on one node named "overview",
the key "overview" of line 25 and the node name of line 29 collide in the group
"Node CPU usage <selector>, %". The group holds a single chart, which is featured as
the overview chart and sorted and stacked as the mode-breakdown chart, and that chart
holds two series (the node's usage and its `user` mode) although the instances have one
distinct node name. -/
theorem cpu_overview_collision :
    ((cpu firstEntries (twoInstancesOneNode "overview")).chart?
      "Node CPU usage <selector>, %" "overview").map
        (fun c => (c.featured, c.sorted, c.stacked, c.Series.map (fun s => s.Name))) =
      some (true, true, true, ["overview", "user"]) ∧
    ((cpu firstEntries (twoInstancesOneNode "overview")).ChartGroups.filter
      (fun g => g.Title == "Node CPU usage <selector>, %")).map
        (fun g => g.Charts.map (fun c => c.Title)) = [["overview"]] ∧
    ((cpu firstEntries (twoInstancesOneNode "overview")).seriesOf
      "Node CPU usage <selector>, %" "overview").length = 2 ∧
    ((twoInstancesOneNode "overview").Instances.filterMap
      (fun i => i.Node.map (fun nd => nd.Name))).dedup = ["overview"] := by
  decide

/-- Away from the key collision, that is for every application none of whose instances'
nodes is named "overview", the code does what it is written to do: the "overview" chart of the node-usage group has exactly one series for each
distinct node name among the nodes of the application's instances, however many
instances share that node; and for each such node name the mode-breakdown chart and
the consumer chart keyed by it hold the series of one node of that name, once: the
result of `cpuByMode` on its mode map, and the top 5 of its per-application usage. -/
theorem cpu_node_charts
    (Top : GoMap TimeSeries → Reducer → Nat → List (String × TimeSeries))
    (app : Application)
    (H : ∀ i ∈ app.Instances, ∀ nd, i.Node = some nd → nd.Name ≠ "overview") :
    (((cpu Top app).seriesOf "Node CPU usage <selector>, %" "overview").map
      (fun s => s.Name)).Nodup ∧
    (∀ n, n ∈ ((cpu Top app).seriesOf "Node CPU usage <selector>, %" "overview").map
        (fun s => s.Name) ↔
      ∃ i ∈ app.Instances, ∃ nd, i.Node = some nd ∧ nd.Name = n) ∧
    ((cpu Top app).seriesOf "Node CPU usage <selector>, %" "overview").length =
      ((app.Instances.filterMap (fun i => i.Node.map (fun nd => nd.Name))).dedup).length ∧
    (∀ i ∈ app.Instances, ∀ nd, i.Node = some nd →
      ∃ nd0, (∃ j ∈ app.Instances, j.Node = some nd0) ∧ nd0.Name = nd.Name ∧
        (cpu Top app).seriesOf "Node CPU usage <selector>, %" nd.Name =
          cpuByMode nd0.CpuUsageByMode ∧
        (cpu Top app).seriesOf "CPU consumers on <selector>, cores" nd.Name =
          (Top (usageByApp nd0.Instances) Reducer.NanSum 5).map
            (fun s => (⟨s.1, "", s.2⟩ : Series))) := by
  obtain ⟨ha, hb1, hb2, hc, _⟩ := cpuState_inv Top app.Instances H
  have hcpu : cpu Top app = (cpuState Top app.Instances).dash := rfl
  rw [hcpu]
  have hmem : ∀ n, n ∈ ((cpuState Top app.Instances).dash.seriesOf
      "Node CPU usage <selector>, %" "overview").map (fun s => s.Name) ↔
      ∃ i ∈ app.Instances, ∃ nd, i.Node = some nd ∧ nd.Name = n :=
    fun n => (hb2 n).trans (ha n)
  refine ⟨hb1, hmem, ?_, ?_⟩
  · have hperm : (((cpuState Top app.Instances).dash.seriesOf
        "Node CPU usage <selector>, %" "overview").map
        (fun s => s.Name)).Perm
        ((app.Instances.filterMap (fun i => i.Node.map (fun nd => nd.Name))).dedup) := by
      rw [List.perm_ext_iff_of_nodup hb1 (List.nodup_dedup _)]
      intro n
      rw [hmem n, List.mem_dedup, List.mem_filterMap]
      constructor
      · rintro ⟨i, hi, nd, h1, h2⟩
        exact ⟨i, hi, by rw [h1, Option.map_some', h2]⟩
      · rintro ⟨i, hi, h1⟩
        cases hn : i.Node with
        | none => rw [hn] at h1; exact Option.noConfusion h1
        | some nd =>
          rw [hn] at h1
          exact ⟨i, hi, nd, hn, Option.some.inj h1⟩
    rw [← hperm.length_eq, List.length_map]
  · intro i hi nd hnd
    have hk : nd.Name ∈ (cpuState Top app.Instances).relevantNodes.keys :=
      (ha nd.Name).mpr ⟨i, hi, nd, hnd, rfl⟩
    cases hg : (cpuState Top app.Instances).relevantNodes.get? nd.Name with
    | none => exact absurd hk ((GoMap.get?_eq_none_iff _ _).mp hg)
    | some nd0 =>
      obtain ⟨h1, h2, h3, h4⟩ := hc nd.Name nd0 hg
      exact ⟨nd0, h2, h1, h3, h4⟩

/-- Two instances on the same node `node-1`: the overview chart has exactly one series. -/
theorem cpu_node_charts_witness :
    (∀ i ∈ (twoInstancesOneNode "node-1").Instances, ∀ nd, i.Node = some nd →
      nd.Name ≠ "overview") ∧
    ((cpu firstEntries (twoInstancesOneNode "node-1")).seriesOf
      "Node CPU usage <selector>, %" "overview").length = 1 ∧
    ((cpu firstEntries (twoInstancesOneNode "node-1")).seriesOf
      "Node CPU usage <selector>, %" "overview").length =
      (((twoInstancesOneNode "node-1").Instances.filterMap
        (fun i => i.Node.map (fun nd => nd.Name))).dedup).length :=
  have H : ∀ i ∈ (twoInstancesOneNode "node-1").Instances, ∀ nd, i.Node = some nd →
      nd.Name ≠ "overview" := by
    intro i hi nd hnd
    simp only [twoInstancesOneNode, List.mem_cons, List.mem_singleton, List.not_mem_nil,
      or_false] at hi
    rcases hi with rfl | rfl <;>
      (cases hnd; decide)
  ⟨H, by decide, (cpu_node_charts firstEntries (twoInstancesOneNode "node-1") H).2.2.1⟩

end Coroot
